import Mathlib

/-!
Verification development for the LMS features-based recommendation engine
(`FeaturesEngine.cpp`, namespace `Recommendation`).

The C++ source is shallowly embedded:
* catalogue identifiers become natural numbers;
* `double` values become rationals (exact arithmetic stands in for IEEE
  doubles; every claim below is about structural and counting behaviour,
  never about rounding);
* `std::map` and `std::unordered_map` members become association lists
  whose operations mirror `operator[]` (find the first entry,
  default-insert at the end when absent);
* the cooperative cancellation flag `_loadCancelled` becomes an
  `Option Nat`: `some c` means the flag is set from the `c`-th read of the
  flag onwards (the flag is one-way, so it is monotone by construction);
  every read of the flag consumes one tick;
* code of the repository that is outside the sampled sources
  (`SOM::Network`, `SOM::DataNormalizer`, `FeaturesEngineCache`,
  `getFeatureDef`, `getSimilarObjects`, `Utils::push_back_if_not_present`,
  `Random::pickRandom`, the `TrainSettings` defaults) is either modelled
  from the specification (doc comments say so explicitly) or supplied as a
  component of an explicit environment `Env`.
-/

set_option allowUnsafeReducibility true in
attribute [semireducible] Rat.mul Rat.add Rat.sub Rat.inv

namespace Recommendation

/-- Catalogue track identifier (`Database::TrackId`). -/
abbrev TrackId := Nat
/-- Catalogue release identifier (`Database::ReleaseId`). -/
abbrev ReleaseId := Nat
/-- Catalogue artist identifier (`Database::ArtistId`). -/
abbrev ArtistId := Nat
/-- Artist link type (`Database::TrackArtistLinkType`). -/
abbrev LinkType := Nat
/-- Name of one analysis feature (`FeatureName`). -/
abbrev FeatureName := String
/-- A dense sample vector (`SOM::InputVector`). -/
abbrev InputVector := List ℚ
/-- A grid position `(x, y)` (`SOM::Position`). -/
abbrev Position := Nat × Nat
/-- Mapping of feature name to its stored values, in map iteration order
(`FeatureValuesMap`). -/
abbrev FeatureValuesMap := List (FeatureName × List ℚ)
/-- Mapping of feature name to its configured weight, in map iteration
order (`FeatureSettingsMap`). -/
abbrev FeatureSettingsMap := List (FeatureName × ℚ)
/-- Mapping of track to its list of grid positions (`TrackPositions`). -/
abbrev TrackPositions := List (TrackId × List Position)

/-- The cancellation flag `_loadCancelled`, viewed through its successive
reads: `some c` means the flag is observed set from read number `c` on. -/
def isCancelled (cancel : Option Nat) (i : Nat) : Bool :=
  match cancel with
  | none => false
  | some c => decide (c ≤ i)

/-- Semantics of `Utils::push_back_if_not_present` (declared outside the
sampled sources; the specification fixes it: "Insertion is idempotent:
adding the same position twice to an entity's set is a no-op"). -/
def pushIfAbsent [DecidableEq α] (l : List α) (x : α) : List α :=
  if x ∈ l then l else l ++ [x]

/-- Lookup in an association list (first matching entry), returning a
default when absent: the read side of `std::map::operator[]`. -/
def alGetD [DecidableEq κ] (d : ν) (l : List (κ × ν)) (k : κ) : ν :=
  match l.find? (fun e => e.1 = k) with
  | some e => e.2
  | none => d

/-- Rewrite of one key's value in an association list: default-insert the
key at the end when absent, then apply `f` — the write side of
`std::map::operator[]` followed by a mutation. -/
def alUpd [DecidableEq κ] (d : ν) : List (κ × ν) → κ → (ν → ν) → List (κ × ν)
  | [], k, f => [(k, f d)]
  | (k', v) :: rest, k, f =>
      if k' = k then (k', f v) :: rest else (k', v) :: alUpd d rest k f

namespace SOM

/-- Grid container `SOM::Matrix<T>`: a `width × height` grid of cells, each
holding a list of entries. Cells are stored sparsely: an absent cell is an
empty cell. -/
structure Matrix (α : Type) where
  width : Nat
  height : Nat
  cells : List (Position × List α)
deriving DecidableEq

/-- Cell read access on the grid. -/
def Matrix.get (m : Matrix α) (p : Position) : List α :=
  alGetD [] m.cells p

/-- Cell write access on the grid. -/
def Matrix.upd (m : Matrix α) (p : Position) (f : List α → List α) : Matrix α :=
  { m with cells := alUpd [] m.cells p f }

/-- State of `SOM::Network`. Modelled from the spec: the class itself is
outside the sampled sources; the fields follow spec data model §3
("Network: {width, height, dimensions, refVectors, dataWeights}"), with
reference vectors stored row-major. -/
structure Network where
  width : Nat
  height : Nat
  dimensions : Nat
  refVectors : List (List ℚ)
  dataWeights : List ℚ
deriving DecidableEq

/-- Modelled from the spec: construction of `SOM::Network` (§4.3) fills
every reference vector with independent values drawn from the random
source `seed`; data weights default to 1 until `setDataWeights`. -/
def Network.new (w h d : Nat) (seed : Nat → ℚ) : Network :=
  { width := w, height := h, dimensions := d
    refVectors :=
      (List.range (w * h)).map fun i => (List.range d).map fun j => seed (i * d + j)
    dataWeights := List.replicate d 1 }

/-- Modelled from the spec: `SOM::Network::setDataWeights` (§4.3), the
per-dimension multiplier used by every later distance computation. -/
def Network.setDataWeights (net : Network) (w : List ℚ) : Network :=
  { net with dataWeights := w }

/-- Modelled from the spec: the weighted distance of §4.3. The engine only
ever ranks distances, so the squared weighted Euclidean distance is used
(square roots leave the rationals); ranking is unchanged. -/
def weightedSqDist (w a b : List ℚ) : ℚ :=
  ((w.zip (a.zip b)).map fun x => x.1 * (x.2.1 - x.2.2) ^ 2).sum

/-- Scan for the index of the least value; a strict comparison keeps the
first minimum, implementing the tie rule "lowest row-major cell". -/
def argminGo (f : α → ℚ) : List α → Nat → Nat → ℚ → Nat
  | [], _, bi, _ => bi
  | x :: xs, i, bi, bv =>
      if f x < bv then argminGo f xs (i + 1) i (f x)
      else argminGo f xs (i + 1) bi bv

/-- Index of the first minimum of `f` over `l` (0 on the empty list). -/
def argminIdx (f : α → ℚ) : List α → Nat
  | [] => 0
  | x :: xs => argminGo f xs 1 0 (f x)

/-- Modelled from the spec: `getClosestRefVectorPosition` (§4.3) — the
best matching unit for a vector under the weighted distance, ties broken
toward the lowest row-major cell. -/
def Network.closest (net : Network) (v : List ℚ) : Position :=
  let i := argminIdx (fun r => weightedSqDist net.dataWeights r v) net.refVectors
  (i % net.width, i / net.width)

/-- Modelled from the spec: one training update of §4.3. The decay
schedules are explicitly tunable (§9 open question); this instantiation
selects sample `k mod n`, uses learning rate `1 / (k + 2)` (monotonically
decreasing) and neighbourhood radius 0 (trivially non-increasing), moving
the best matching unit toward the sample. -/
def Network.trainStep (net : Network) (sample : List ℚ) (k : Nat) : Network :=
  let i := argminIdx (fun r => weightedSqDist net.dataWeights r sample) net.refVectors
  let r := net.refVectors.getD i []
  let r' := r.zipWith (fun x s => x + 1 / (k + 2 : ℚ) * (s - x)) sample
  { net with refVectors := net.refVectors.set i r' }

/-- Modelled from the spec: the training loop of §4.3 — the cancellation
flag is polled at the start of every iteration and training stops
immediately when it is set, leaving the reference vectors exactly as at
the last completed iteration. Returns the network, the next flag-read
index, and whether the run was aborted. -/
def trainGo (samples : List (List ℚ)) (cancel : Option Nat) :
    Network → Nat → Nat → Nat → Network × Nat × Bool
  | net, _, 0, polls => (net, polls, false)
  | net, k, fuel + 1, polls =>
      if isCancelled cancel polls then (net, polls + 1, true)
      else
        trainGo samples cancel
          (net.trainStep (samples.getD (k % samples.length) []) k)
          (k + 1) fuel (polls + 1)

/-- Modelled from the spec: median of a list of rationals (middle element
of the sorted list, 0 for the empty list). -/
def medianOf (l : List ℚ) : ℚ :=
  (l.insertionSort (· ≤ ·)).getD (l.length / 2) 0

/-- Reference vector at grid cell `(x, y)`, row-major. -/
def Network.refAt (net : Network) (x y : Nat) : List ℚ :=
  net.refVectors.getD (y * net.width + x) []

/-- Modelled from the spec: `computeRefVectorsDistanceMedian` /
`medianNeighborDistance` (§4.3) — the median, over grid-adjacent neuron
pairs, of their weighted reference-vector distance. -/
def Network.refVectorsDistanceMedian (net : Network) : ℚ :=
  let horiz := (List.range net.height).flatMap fun y =>
    (List.range (net.width - 1)).map fun x => (net.refAt x y, net.refAt (x + 1) y)
  let vert := (List.range net.width).flatMap fun x =>
    (List.range (net.height - 1)).map fun y => (net.refAt x y, net.refAt x (y + 1))
  medianOf ((horiz ++ vert).map fun pr => weightedSqDist net.dataWeights pr.1 pr.2)

/-- Modelled from the spec: `DataNormalizer::computeNormalizationFactors`
(§4.2) — a single pass over the whole corpus producing one min/max pair
per dimension. -/
def normalizationFactors (d : Nat) (samples : List (List ℚ)) : List (ℚ × ℚ) :=
  (List.range d).map fun i =>
    let col := samples.map fun s => s.getD i 0
    (col.foldl min (col.headD 0), col.foldl max (col.headD 0))

/-- Modelled from the spec: `DataNormalizer::normalizeData` (§4.2) —
rescale each dimension by the precomputed min/max factors. -/
def normalizeData (factors : List (ℚ × ℚ)) (v : List ℚ) : List ℚ :=
  (List.range v.length).map fun i =>
    let mn := (factors.getD i (0, 0)).1
    let mx := (factors.getD i (0, 0)).2
    if mx = mn then 0 else (v.getD i 0 - mn) / (mx - mn)

end SOM

/-- Sequential writes `acc[idx++] = v`, `d` times — the inner loop of
`getInputVectorWeights` (src/unnamed/part_002:122-123). `List.set`
ignores an out-of-bounds write; claim C10 shows the source's writes stay
in bounds. -/
def writeBlock (acc : List ℚ) (idx : Nat) : Nat → ℚ → List ℚ
  | 0, _ => acc
  | d + 1, v => writeBlock (acc.set idx v) (idx + 1) d v

/-- Sequential writes `acc[i++] = val` for each stored value — the inner
loop of `convertFeatureValuesMapToInputVector`
(src/unnamed/part_002:105-106). -/
def writeVals : List ℚ → Nat → List ℚ → List ℚ
  | acc, _, [] => acc
  | acc, idx, v :: vs => writeVals (acc.set idx v) (idx + 1) vs

/-- Loop of `getInputVectorWeights` (src/unnamed/part_002:112-129): for
each feature of the settings map, write `1 / featureNbDimensions * weight`
into the next `featureNbDimensions` slots. Returns the vector and the
final `index` (the value the source compares in
`assert(index == nbDimensions)`). -/
def writeWeights (defDims : FeatureName → Nat) :
    FeatureSettingsMap → Nat → List ℚ → List ℚ × Nat
  | [], idx, acc => (acc, idx)
  | (f, w) :: rest, idx, acc =>
      writeWeights defDims rest (idx + defDims f)
        (writeBlock acc idx (defDims f) (1 / (defDims f : ℚ) * w))

/-- Vector produced by `getInputVectorWeights`
(src/unnamed/part_002:112-129). -/
def getInputVectorWeights (defDims : FeatureName → Nat)
    (featureSettingsMap : FeatureSettingsMap) (nbDimensions : Nat) : List ℚ :=
  (writeWeights defDims featureSettingsMap 0 (List.replicate nbDimensions 0)).1

/-- Loop of `convertFeatureValuesMapToInputVector`
(src/unnamed/part_002:90-110): on the first feature whose stored value
count differs from its declared dimension count, reset the result and
break; otherwise copy the values at the running index. -/
def convertGo (defDims : FeatureName → Nat) :
    FeatureValuesMap → Nat → List ℚ → Option (List ℚ)
  | [], _, acc => some acc
  | (f, vs) :: rest, i, acc =>
      if vs.length ≠ defDims f then none
      else convertGo defDims rest (i + vs.length) (writeVals acc i vs)

/-- `convertFeatureValuesMapToInputVector` (src/unnamed/part_002:90-110). -/
def convertFeatureValuesMapToInputVector (defDims : FeatureName → Nat)
    (featureValuesMap : FeatureValuesMap) (nbDimensions : Nat) : Option (List ℚ) :=
  convertGo defDims featureValuesMap 0 (List.replicate nbDimensions 0)

/-- Value `nbDimensions` as computed in `loadFromTraining`
(src/unnamed/part_002:136-141): the sum of declared dimensions over the
set of feature names of the settings map (the `unordered_set` becomes
`dedup`; the sum is order-independent). -/
def nbDimensionsOf (defDims : FeatureName → Nat) (fsm : FeatureSettingsMap) : Nat :=
  (((fsm.map Prod.fst).dedup).map defDims).sum

/-- Sum of declared dimensions over the entries of a settings map, in list
order. -/
def totalDims (defDims : FeatureName → Nat) (fsm : FeatureSettingsMap) : Nat :=
  (fsm.map fun e => defDims e.1).sum

/-- The per-dimension weight entries as one flat list, feature by
feature. -/
def weightsFlat (defDims : FeatureName → Nat) (fsm : FeatureSettingsMap) : List ℚ :=
  fsm.flatMap fun e => List.replicate (defDims e.1) (1 / (defDims e.1 : ℚ) * e.2)

/-- Serialized model `FeaturesEngineCache`: exactly the network and the
track positions (src/unnamed/part_002:359-363 and spec §6). -/
structure FeaturesEngineCache where
  network : SOM.Network
  trackPositions : TrackPositions
deriving DecidableEq

/-- Training parameters `TrainSettings` (declared in a header outside the
sampled sources; the field types follow spec §3:
`sampleCountPerNeuron : float > 0`). -/
structure TrainSettings where
  featureSettingsMap : FeatureSettingsMap
  iterationCount : Nat
  sampleCountPerNeuron : ℚ

/-- The mutable members of `FeaturesEngine` that the sampled source reads
and writes. -/
structure EngineState where
  network : Option SOM.Network
  networkRefVectorsDistanceMedian : ℚ
  trackPositions : TrackPositions
  releasePositions : List (ReleaseId × List Position)
  artistPositions : List (ArtistId × List Position)
  trackMatrix : SOM.Matrix TrackId
  releaseMatrix : SOM.Matrix ReleaseId
  artistMatrix : List (LinkType × SOM.Matrix ArtistId)
deriving DecidableEq

/-- Default-constructed engine: no model, empty maps and matrices. -/
def EngineState.fresh : EngineState :=
  ⟨none, 0, [], [], [], ⟨0, 0, []⟩, ⟨0, 0, []⟩, []⟩

/-- External collaborators, randomness and repository code outside the
sampled sources, supplied as one explicit environment (spec §6 and §9:
the engine consumes injected capabilities for feature fetching, existence
checks and catalogue relationships; `getFeatureDef` is a fixed table;
the cache artifact and all randomness are external). -/
structure Env where
  /-- Table `getFeatureDef(name).nbDimensions`, fixed per feature name. -/
  defDims : FeatureName → Nat
  /-- Feature source `fetchFeatures(trackId, featureNames)` (spec §6). -/
  fetch : TrackId → List FeatureName → Option FeatureValuesMap
  /-- Result of `Track::getAllIdsWithFeatures`. -/
  allTrackIds : List TrackId
  /-- Existence check for tracks (also backs `Track::getById`). -/
  trackExists : TrackId → Bool
  /-- Existence check for releases. -/
  releaseExists : ReleaseId → Bool
  /-- Existence check for artists. -/
  artistExists : ArtistId → Bool
  /-- Relationship `track->getRelease()`. -/
  trackRelease : TrackId → Option ReleaseId
  /-- Relationship `track->getArtistLinks()` as (artist, link type) pairs. -/
  trackArtistLinks : TrackId → List (ArtistId × LinkType)
  /-- Random source for reference-vector construction. -/
  seedVals : Nat → ℚ
  /-- Random stream consumed by `Random::pickRandom`. -/
  rngPick : Nat → Nat
  /-- Cache artifact visible to `FeaturesEngineCache::read()`. -/
  cacheStored : Option FeaturesEngineCache
  /-- Default `TrainSettings::iterationCount` (header outside the sampled
  sources). -/
  defaultIterationCount : Nat
  /-- Default `TrainSettings::sampleCountPerNeuron` (header outside the
  sampled sources). -/
  defaultSampleCountPerNeuron : ℚ

/-- Body of the artist-link loop of
`FeaturesEngine::load(const SOM::Network&, const TrackPositions&)`
(src/unnamed/part_002:433-446) for one link: extend the artist position
map and the per-link-type artist matrix, creating a fresh
`width × height` matrix on first use of a link type. -/
def processArtistLink (w h : Nat) (p : Position) (st : EngineState)
    (al : ArtistId × LinkType) : EngineState :=
  let st := { st with
    artistPositions := alUpd [] st.artistPositions al.1 (fun ps => pushIfAbsent ps p) }
  { st with
    artistMatrix := alUpd (SOM.Matrix.mk w h []) st.artistMatrix al.2
      (fun m => m.upd p (fun l => pushIfAbsent l al.1)) }

/-- Body of the innermost position loop of
`FeaturesEngine::load(const SOM::Network&, const TrackPositions&)`
(src/unnamed/part_002:422-447) for one `(track, position)` pair: extend
the track maps, the release maps when the track has a release, and the
per-link-type artist maps. -/
def processPosition (env : Env) (w h : Nat) (t : TrackId)
    (st : EngineState) (p : Position) : EngineState :=
  let st := { st with
    trackPositions := alUpd [] st.trackPositions t (fun ps => pushIfAbsent ps p),
    trackMatrix := st.trackMatrix.upd p (fun ts => pushIfAbsent ts t) }
  let st :=
    match env.trackRelease t with
    | some r => { st with
        releasePositions := alUpd [] st.releasePositions r (fun ps => pushIfAbsent ps p),
        releaseMatrix := st.releaseMatrix.upd p (fun rs => pushIfAbsent rs r) }
    | none => st
  (env.trackArtistLinks t).foldl (processArtistLink w h p) st

/-- One iteration of the entry loop of
`FeaturesEngine::load(const SOM::Network&, const TrackPositions&)`
(src/unnamed/part_002:411-448): tracks no longer in the catalogue are
skipped, otherwise every position of the track is processed. -/
def processEntry (env : Env) (w h : Nat) (st : EngineState)
    (e : TrackId × List Position) : EngineState :=
  if env.trackExists e.1 then e.2.foldl (processPosition env w h e.1) st else st

/-- Entry loop with its per-entry cancellation poll
(src/unnamed/part_002:411-414); the Bool records whether the loop ran to
completion. -/
def loadModelGo (env : Env) (w h : Nat) (cancel : Option Nat) :
    List (TrackId × List Position) → EngineState → Nat → EngineState × Nat × Bool
  | [], st, polls => (st, polls, true)
  | e :: rest, st, polls =>
      if isCancelled cancel polls then (st, polls + 1, false)
      else loadModelGo env w h cancel rest (processEntry env w h st e) (polls + 1)

/-- Prologue of
`FeaturesEngine::load(const SOM::Network&, const TrackPositions&)`
(src/unnamed/part_002:398-405): recompute the median and reassign the
track and release matrices to fresh grids of the new network's size. -/
def loadModelReset (st : EngineState) (network : SOM.Network) : EngineState :=
  { st with
    networkRefVectorsDistanceMedian := network.refVectorsDistanceMedian,
    releaseMatrix := SOM.Matrix.mk network.width network.height [],
    trackMatrix := SOM.Matrix.mk network.width network.height [] }

/-- Model adoption
`FeaturesEngine::load(const SOM::Network&, const TrackPositions&)`
(src/unnamed/part_002:393-453): reset the median and matrices, walk the
track positions extending the maps, and finally commit the network —
unless a cancellation poll fired, in which case the network member is
left untouched. -/
def loadModel (env : Env) (st : EngineState) (cancel : Option Nat) (polls : Nat)
    (network : SOM.Network) (trackPositions : TrackPositions) : EngineState × Nat :=
  match loadModelGo env network.width network.height cancel trackPositions
      (loadModelReset st network) polls with
  | (st2, p2, true) => ({ st2 with network := some network }, p2)
  | (st2, p2, false) => (st2, p2)

/-- Cache adoption `FeaturesEngine::loadFromCache`
(src/unnamed/part_002:243-249). -/
def loadFromCache (env : Env) (st : EngineState) (cancel : Option Nat) (polls : Nat)
    (cache : FeaturesEngineCache) : EngineState × Nat :=
  loadModel env st cancel polls cache.network cache.trackPositions

/-- Capture `FeaturesEngine::toCache` (src/unnamed/part_002:359-363):
exactly the network and the track-position member. Dereferencing the
network member when no model was ever committed is undefined behaviour in
the source (`*_network` on a null `unique_ptr`), modelled as `none`. -/
def toCache (st : EngineState) : Option FeaturesEngineCache :=
  st.network.map fun n => ⟨n, st.trackPositions⟩

/-- Fetch-and-convert for one track — the per-track body of the extraction
loop of `loadFromTraining` (src/unnamed/part_002:168-183). -/
def sampleOfTrack (env : Env) (names : List FeatureName) (nbDims : Nat)
    (t : TrackId) : Option (List ℚ) :=
  (env.fetch t names).bind fun m =>
    convertFeatureValuesMapToInputVector env.defDims m nbDims

/-- Extraction loop of `loadFromTraining` (src/unnamed/part_002:163-184):
the cancellation flag is polled once per track (a `none` result means the
load was abandoned mid-loop); tracks without a usable vector are silently
skipped and the batch continues. -/
def extractGo (env : Env) (names : List FeatureName) (nbDims : Nat)
    (cancel : Option Nat) :
    List TrackId → Nat → Option (List (TrackId × List ℚ)) × Nat
  | [], polls => (some [], polls)
  | t :: rest, polls =>
      if isCancelled cancel polls then (none, polls + 1)
      else
        match sampleOfTrack env names nbDims t with
        | none => extractGo env names nbDims cancel rest (polls + 1)
        | some v =>
            match extractGo env names nbDims cancel rest (polls + 1) with
            | (none, p') => (none, p')
            | (some l, p') => (some ((t, v) :: l), p')

/-- Classification loop of `loadFromTraining`
(src/unnamed/part_002:226-238): per-sample cancellation poll; a plain
`push_back` into the local track-position map. -/
def classifyGo (net : SOM.Network) (cancel : Option Nat) :
    List (TrackId × List ℚ) → TrackPositions → Nat → Option TrackPositions × Nat
  | [], tp, polls => (some tp, polls)
  | (t, v) :: rest, tp, polls =>
      if isCancelled cancel polls then (none, polls + 1)
      else classifyGo net cancel rest
        (alUpd [] tp t (fun ps => ps ++ [net.closest v])) (polls + 1)

/-- Greatest `k ≤ bound` with `k * k ≤ n` (0 when none): a structurally
recursive integer square root, used so that grid sizes evaluate inside
the kernel. -/
def isqrtGo (n : Nat) : Nat → Nat
  | 0 => 0
  | k + 1 => if (k + 1) * (k + 1) ≤ n then k + 1 else isqrtGo n k

/-- The integer square root (equal to `Nat.sqrt`, see `isqrt_eq_sqrt`). -/
def isqrt (n : Nat) : Nat := isqrtGo n n

/-- Grid sizing of `loadFromTraining` (src/unnamed/part_002:200-205): the
square root of `sampleCount / sampleCountPerNeuron` truncated to an
integer, clamped below at 2. For a nonnegative real, truncating the
square root is the integer square root of the floor. -/
def gridSize (sampleCount : Nat) (sampleCountPerNeuron : ℚ) : Nat :=
  max 2 (isqrt (((sampleCount : ℚ) / sampleCountPerNeuron).floor.toNat))

/-- Value `featureNames` of `loadFromTraining`
(src/unnamed/part_002:136-138): the set of feature names of the settings
map. -/
def trainFeatureNames (ts : TrainSettings) : List FeatureName :=
  (ts.featureSettingsMap.map Prod.fst).dedup

/-- Value `nbDimensions` of `loadFromTraining`
(src/unnamed/part_002:140-141). -/
def trainNbDims (env : Env) (ts : TrainSettings) : Nat :=
  ((trainFeatureNames ts).map env.defDims).sum

/-- The samples after normalization, paired with their track ids
(src/unnamed/part_002:193-198). -/
def normalizedPairs (env : Env) (ts : TrainSettings)
    (pairs : List (TrackId × List ℚ)) : List (TrackId × List ℚ) :=
  pairs.map fun e =>
    (e.1, SOM.normalizeData
      (SOM.normalizationFactors (trainNbDims env ts) (pairs.map Prod.snd)) e.2)

/-- The freshly sized network with its data weights set
(src/unnamed/part_002:200-211). -/
def initialNetwork (env : Env) (ts : TrainSettings)
    (pairs : List (TrackId × List ℚ)) : SOM.Network :=
  (SOM.Network.new
    (gridSize (normalizedPairs env ts pairs).length ts.sampleCountPerNeuron)
    (gridSize (normalizedPairs env ts pairs).length ts.sampleCountPerNeuron)
    (trainNbDims env ts) env.seedVals).setDataWeights
      (getInputVectorWeights env.defDims ts.featureSettingsMap
        (trainNbDims env ts))

/-- Training pass `FeaturesEngine::loadFromTraining`
(src/unnamed/part_002:131-241). Returns the engine state and the next
flag-read index. The early outcomes (cancellation during extraction, no
trainable data, cancellation during classification or map construction)
leave the corresponding members untouched exactly as the source does. -/
def loadFromTraining (env : Env) (ts : TrainSettings) (st : EngineState)
    (cancel : Option Nat) (polls : Nat) : EngineState × Nat :=
  match extractGo env (trainFeatureNames ts) (trainNbDims env ts) cancel
      env.allTrackIds polls with
  | (none, p) => (st, p)
  | (some pairs, p) =>
      if pairs.isEmpty then (st, p)
      else
        match SOM.trainGo ((normalizedPairs env ts pairs).map Prod.snd) cancel
            (initialNetwork env ts pairs) 0 ts.iterationCount p with
        | (net2, p2, _) =>
            match classifyGo net2 cancel (normalizedPairs env ts pairs) [] p2 with
            | (none, p3) => (st, p3)
            | (some tp, p3) => loadModel env st cancel p3 net2 tp

/-- Fixed default feature configuration
`FeaturesEngine::getDefaultTrainFeatureSettings`
(src/unnamed/part_002:44-57). -/
def getDefaultTrainFeatureSettings : FeatureSettingsMap :=
  [("lowlevel.spectral_energyband_high.mean", 1),
   ("lowlevel.spectral_rolloff.median", 1),
   ("lowlevel.spectral_contrast_valleys.var", 1),
   ("lowlevel.erbbands.mean", 1),
   ("lowlevel.gfcc.mean", 1)]

/-- Observable outcome of `FeaturesEngine::load(bool, ProgressCallback)`:
the final engine state, whether the cache was written, the cache artifact
after the call, and the next flag-read index. -/
structure LoadOutcome where
  state : EngineState
  wroteCache : Bool
  cacheAfter : Option FeaturesEngineCache
  polls : Nat
deriving DecidableEq

/-- Settings built at src/unnamed/part_002:378-379: the default feature
map with the defaulted `iterationCount` and `sampleCountPerNeuron` of the
`TrainSettings` declaration (header outside the sampled sources). -/
def defaultTrainSettings (env : Env) : TrainSettings :=
  { featureSettingsMap := getDefaultTrainFeatureSettings,
    iterationCount := env.defaultIterationCount,
    sampleCountPerNeuron := env.defaultSampleCountPerNeuron }

/-- Training branch of `FeaturesEngine::load(bool, ProgressCallback)`
(src/unnamed/part_002:378-383): train with the default settings, then —
if the flag is still unset at line 382 — persist `toCache()`. A `none`
result models the undefined null dereference inside `toCache` when no
model was ever committed. -/
def loadTrainPath (env : Env) (st : EngineState) (cancel : Option Nat)
    (cacheNow : Option FeaturesEngineCache) : Option LoadOutcome :=
  match loadFromTraining env (defaultTrainSettings env) st cancel 0 with
  | (st', p') =>
      if isCancelled cancel p' then some ⟨st', false, cacheNow, p' + 1⟩
      else
        match toCache st' with
        | none => none
        | some c => some ⟨st', true, some c, p' + 1⟩

/-- Orchestration `FeaturesEngine::load(bool, ProgressCallback)`
(src/unnamed/part_002:365-384): a force reload invalidates the cache and
trains; otherwise a readable cache is adopted directly and the call
returns; otherwise train with the default feature settings. -/
def load (env : Env) (forceReload : Bool) (st : EngineState)
    (cancel : Option Nat) : Option LoadOutcome :=
  if forceReload then loadTrainPath env st cancel none
  else
    match env.cacheStored with
    | some c =>
        match loadFromCache env st cancel 0 c with
        | (st', p') => some ⟨st', false, env.cacheStored, p'⟩
    | none => loadTrainPath env st cancel none

/-- Modelled from the spec: the `getSimilarObjects` template helper is
declared outside the sampled sources; spec §4.5 fixes it as: resolve the
query entities' position sets through the positions map, collect the
entities found in those inverse-matrix cells, exclude the query entities
themselves, and cap at `maxCount` (the expand-outward search order is an
explicitly open parameter per §9; this model visits cells in query
order). -/
def getSimilarObjects [DecidableEq α] (queryIds : List α) (matrix : SOM.Matrix α)
    (positions : List (α × List Position)) (maxCount : Nat) : List α :=
  ((((queryIds.flatMap fun q => (alGetD [] positions q).flatMap fun p => matrix.get p).filter
      fun x => x ∉ queryIds).dedup).take maxCount)

/-- Query `FeaturesEngine::getSimilarTracks` (src/unnamed/part_002:272-291):
candidate lookup, then the existence filter. -/
def getSimilarTracks (env : Env) (st : EngineState) (trackIds : List TrackId)
    (maxCount : Nat) : List TrackId :=
  (getSimilarObjects trackIds st.trackMatrix st.trackPositions maxCount).filter
    env.trackExists

/-- Query `FeaturesEngine::getSimilarReleases`
(src/unnamed/part_002:293-313): the existence filter runs only on a
nonempty candidate list. -/
def getSimilarReleases (env : Env) (st : EngineState) (releaseId : ReleaseId)
    (maxCount : Nat) : List ReleaseId :=
  let c := getSimilarObjects [releaseId] st.releaseMatrix st.releasePositions maxCount
  if c.isEmpty then c else c.filter env.releaseExists

/-- Fuel-driven loop body of the random trim: each iteration removes one
entry, so fuel equal to the initial length always suffices. -/
def trimRandomGo (rng : Nat → Nat) (maxCount : Nat) :
    Nat → List α → Nat → List α
  | 0, l, _ => l
  | fuel + 1, l, step =>
      if l.length ≤ maxCount then l
      else trimRandomGo rng maxCount fuel
        (l.eraseIdx (rng step % l.length)) (step + 1)

/-- Random trim loop of `getSimilarArtists`
(src/unnamed/part_002:353-354): while more than `maxCount` entries remain,
erase the entry picked by the random stream. -/
def trimRandom (rng : Nat → Nat) (maxCount : Nat) (l : List α) (step : Nat) :
    List α :=
  trimRandomGo rng maxCount l.length l step

/-- Per-link-type candidate sets computed independently, their union
(`dedup` mirrors the `unordered_set`), and the existence filter — the body
of `FeaturesEngine::getSimilarArtists` before the trim
(src/unnamed/part_002:316-351). -/
def getSimilarArtistsCandidates (env : Env) (st : EngineState)
    (artistId : ArtistId) (linkTypes : List LinkType) (maxCount : Nat) :
    List ArtistId :=
  let perType := fun lt =>
    match st.artistMatrix.find? fun e => e.1 = lt with
    | none => []
    | some e => getSimilarObjects [artistId] e.2 st.artistPositions maxCount
  ((linkTypes.flatMap perType).dedup).filter env.artistExists

/-- Query `FeaturesEngine::getSimilarArtists`
(src/unnamed/part_002:315-357). -/
def getSimilarArtists (env : Env) (st : EngineState) (artistId : ArtistId)
    (linkTypes : List LinkType) (maxCount : Nat) : List ArtistId :=
  trimRandom env.rngPick maxCount
    (getSimilarArtistsCandidates env st artistId linkTypes maxCount) 0

/-! ## Concrete environments, states and settings used by the
witnesses and counterexamples below -/

/-- Concrete dimension table used by the C8 witness. -/
def c8dd : FeatureName → Nat := fun s => if s = "a" then 2 else 3

/-- Environment used by the C9 witness: track 1 has a mismatched feature,
tracks 0 and 2 have valid one-dimensional vectors. -/
def c9env : Env :=
  { defDims := fun _ => 1
    fetch := fun t _ =>
      if t = 1 then some [("a", [1, 2])]
      else some [("a", [(t : ℚ)])]
    allTrackIds := [0, 1, 2]
    trackExists := fun _ => true
    releaseExists := fun _ => true
    artistExists := fun _ => true
    trackRelease := fun _ => none
    trackArtistLinks := fun _ => []
    seedVals := fun _ => 0
    rngPick := fun _ => 0
    cacheStored := none
    defaultIterationCount := 1
    defaultSampleCountPerNeuron := 4 }

/-- Environment for the C1 counterexample: track 5 is no longer in the
catalogue. -/
def c1env : Env :=
  { defDims := fun _ => 1
    fetch := fun _ _ => none
    allTrackIds := []
    trackExists := fun t => decide (t ≠ 5)
    releaseExists := fun _ => true
    artistExists := fun _ => true
    trackRelease := fun _ => none
    trackArtistLinks := fun _ => []
    seedVals := fun _ => 0
    rngPick := fun _ => 0
    cacheStored := none
    defaultIterationCount := 1
    defaultSampleCountPerNeuron := 4 }

/-- A tiny concrete trained network for the C1 counterexample. -/
def c1net : SOM.Network := ⟨2, 2, 1, [[0], [0], [0], [0]], [1]⟩

/-- A cache whose only track (5) no longer exists in the catalogue. -/
def c1cache : FeaturesEngineCache := ⟨c1net, [(5, [(0, 0)])]⟩

/-- Environment for the C3 counterexample: track 1 exists and belongs to
release 10. -/
def c3env : Env :=
  { defDims := fun _ => 1
    fetch := fun _ _ => none
    allTrackIds := []
    trackExists := fun _ => true
    releaseExists := fun _ => true
    artistExists := fun _ => true
    trackRelease := fun t => if t = 1 then some 10 else none
    trackArtistLinks := fun _ => []
    seedVals := fun _ => 0
    rngPick := fun _ => 0
    cacheStored := none
    defaultIterationCount := 1
    defaultSampleCountPerNeuron := 4 }

/-- Concrete network for the C3 counterexample. -/
def c3net : SOM.Network := ⟨2, 2, 1, [[0], [0], [0], [0]], [1]⟩

/-- Engine state after a first load placing track 1 at `(0, 0)`. -/
def c3st1 : EngineState :=
  (loadModel c3env EngineState.fresh none 0 c3net [(1, [(0, 0)])]).1

/-- Engine state after a second load whose model places track 1 only at
`(1, 1)`. -/
def c3st2 : EngineState :=
  (loadModel c3env c3st1 none 0 c3net [(1, [(1, 1)])]).1

/-- Environment for the C4 and C2 runs: one track with a constant
one-feature vector. -/
def c4env : Env :=
  { defDims := fun _ => 1
    fetch := fun _ _ => some [("x", [3])]
    allTrackIds := [0]
    trackExists := fun _ => true
    releaseExists := fun _ => true
    artistExists := fun _ => true
    trackRelease := fun _ => none
    trackArtistLinks := fun _ => []
    seedVals := fun _ => 0
    rngPick := fun _ => 0
    cacheStored := none
    defaultIterationCount := 1
    defaultSampleCountPerNeuron := 4 }

/-- Fallback outcome used only as a `getD` default. -/
def c4dummy : LoadOutcome := ⟨EngineState.fresh, false, none, 0⟩

/-- Engine state after one full, uncancelled `load(forceReload = true)`. -/
def c4st0 : EngineState :=
  ((load c4env true EngineState.fresh none).map LoadOutcome.state).getD
    EngineState.fresh

/-- The same second load, with the cancellation flag set from the fourth
read on — observed first by the entry loop of the index rebuild. -/
def c4run : Option LoadOutcome := load c4env true c4st0 (some 3)

/-- Outcome of the cancelled second load. -/
def c4out : LoadOutcome := (load c4env true c4st0 (some 3)).getD c4dummy

/-- Outcome of a second load whose cancellation (from read 100 on) no
read observes. -/
def c4out100 : LoadOutcome := (load c4env true c4st0 (some 100)).getD c4dummy

/-- Network of the previously loaded model in the C2 run. -/
def c2net : SOM.Network := ⟨2, 2, 1, [[0], [0], [0], [0]], [1]⟩

/-- Engine that already holds a model (network plus one track position)
from an earlier load. -/
def c2prevState : EngineState :=
  { EngineState.fresh with
    network := some c2net, trackPositions := [(7, [(0, 0)])] }

/-- Environment with no trainable tracks and no cache. -/
def c2env : Env :=
  { defDims := fun _ => 1
    fetch := fun _ _ => none
    allTrackIds := []
    trackExists := fun _ => true
    releaseExists := fun _ => true
    artistExists := fun _ => true
    trackRelease := fun _ => none
    trackArtistLinks := fun _ => []
    seedVals := fun _ => 0
    rngPick := fun _ => 0
    cacheStored := none
    defaultIterationCount := 1
    defaultSampleCountPerNeuron := 4 }

/-- The samples extracted by an uncancelled pass of `loadFromTraining`
(tracks without a usable vector already dropped), paired with their
track ids. -/
def extractedPairs (env : Env) (ts : TrainSettings) :
    List (TrackId × List ℚ) :=
  env.allTrackIds.filterMap fun t =>
    (sampleOfTrack env (trainFeatureNames ts) (trainNbDims env ts) t).map
      fun v => (t, v)

/-- Settings for the C5 witness: one one-dimensional feature, one
iteration, four samples per neuron. -/
def c5ts : TrainSettings := ⟨[("a", 1)], 1, 4⟩

/-- Concrete engine state for the C6 witness: one grid cell shared by two
tracks, two releases and two artists. -/
def c6st : EngineState :=
  { EngineState.fresh with
    trackPositions := [(1, [(0, 0)])],
    trackMatrix := ⟨1, 1, [((0, 0), [1, 2])]⟩,
    releasePositions := [(10, [(0, 0)])],
    releaseMatrix := ⟨1, 1, [((0, 0), [10, 11])]⟩,
    artistPositions := [(5, [(0, 0)])],
    artistMatrix := [(0, ⟨1, 1, [((0, 0), [5, 6])]⟩)] }

/-- Environment for the C6 witness; every entity exists. -/
def c6env : Env :=
  { defDims := fun _ => 1
    fetch := fun _ _ => none
    allTrackIds := []
    trackExists := fun _ => true
    releaseExists := fun _ => true
    artistExists := fun _ => true
    trackRelease := fun _ => none
    trackArtistLinks := fun _ => []
    seedVals := fun _ => 0
    rngPick := fun _ => 0
    cacheStored := none
    defaultIterationCount := 1
    defaultSampleCountPerNeuron := 4 }

/-! ## Helper lemmas -/

theorem isCancelled_none_eq (i : Nat) : isCancelled none i = false := rfl

theorem isCancelled_mono {cancel : Option Nat} {i j : Nat}
    (h : isCancelled cancel i = true) (hij : i ≤ j) :
    isCancelled cancel j = true := by
  cases cancel with
  | none => simp [isCancelled] at h
  | some c =>
    simp only [isCancelled, decide_eq_true_eq] at h ⊢
    exact h.trans hij

theorem mem_pushIfAbsent [DecidableEq α] (l : List α) (x y : α) :
    y ∈ pushIfAbsent l x ↔ y ∈ l ∨ y = x := by
  by_cases h : x ∈ l
  · simp only [pushIfAbsent, if_pos h]
    constructor
    · exact fun hy => Or.inl hy
    · rintro (hy | rfl) <;> [exact hy; exact h]
  · simp [pushIfAbsent, if_neg h]

theorem pushIfAbsent_of_not_mem [DecidableEq α] {l : List α} {x : α}
    (h : x ∉ l) : pushIfAbsent l x = l ++ [x] := by
  simp [pushIfAbsent, h]

theorem alGetD_cons [DecidableEq κ] (d : ν) (k₀ : κ) (v₀ : ν)
    (rest : List (κ × ν)) (k : κ) :
    alGetD d ((k₀, v₀) :: rest) k =
      if k₀ = k then v₀ else alGetD d rest k := by
  by_cases h : k₀ = k
  · simp [alGetD, List.find?, h]
  · have hd : (decide (k₀ = k)) = false := by
      simp only [decide_eq_false_iff_not]; exact h
    simp [alGetD, List.find?, hd, h]

theorem alGetD_alUpd [DecidableEq κ] (d : ν) (l : List (κ × ν)) (k k' : κ)
    (f : ν → ν) :
    alGetD d (alUpd d l k f) k' =
      if k' = k then f (alGetD d l k) else alGetD d l k' := by
  induction l with
  | nil =>
    by_cases h : k' = k
    · subst h; simp [alUpd, alGetD_cons, alGetD]
    · have h2 : ¬ (k = k') := fun hc => h hc.symm
      simp [alUpd, alGetD_cons, alGetD, h, h2]
  | cons e rest ih =>
    obtain ⟨k₀, v₀⟩ := e
    by_cases h0 : k₀ = k
    · subst h0
      by_cases h : k₀ = k'
      · subst h; simp [alUpd, alGetD_cons]
      · have h2 : ¬ (k' = k₀) := fun hc => h hc.symm
        simp [alUpd, alGetD_cons, h, h2]
    · by_cases h : k₀ = k'
      · subst h
        have h2 : ¬ (k₀ = k) := h0
        simp [alUpd, alGetD_cons, if_neg h0, h2]
      · have h2 : ¬ (k' = k₀) := fun hc => h hc.symm
        simp only [alUpd, if_neg h0, alGetD_cons, if_neg h]
        exact ih

theorem alUpd_of_absent [DecidableEq κ] (d : ν) (l : List (κ × ν)) (k : κ)
    (f : ν → ν) (h : k ∉ l.map Prod.fst) :
    alUpd d l k f = l ++ [(k, f d)] := by
  induction l with
  | nil => rfl
  | cons e rest ih =>
    obtain ⟨k₀, v₀⟩ := e
    simp only [List.map_cons, List.mem_cons] at h
    push_neg at h
    have hne : k₀ ≠ k := fun hc => h.1 hc.symm
    simp [alUpd, hne, ih h.2]

/-! ## Weight vector construction (claims C8 and C10) -/

theorem writeBlock_length (v : ℚ) :
    ∀ (d : Nat) (acc : List ℚ) (idx : Nat),
      (writeBlock acc idx d v).length = acc.length
  | 0, acc, idx => rfl
  | d + 1, acc, idx => by
      rw [writeBlock, writeBlock_length v d, List.length_set]

theorem writeBlock_eq (v : ℚ) :
    ∀ (d : Nat) (acc : List ℚ) (idx : Nat), idx + d ≤ acc.length →
      writeBlock acc idx d v =
        acc.take idx ++ List.replicate d v ++ acc.drop (idx + d)
  | 0, acc, idx, h => by
      simp [writeBlock, List.take_append_drop]
  | d + 1, acc, idx, h => by
      have hidx : idx < acc.length := by omega
      rw [writeBlock]
      have hlen : (idx + 1) + d ≤ (acc.set idx v).length := by
        rw [List.length_set]; omega
      rw [writeBlock_eq v d (acc.set idx v) (idx + 1) hlen]
      rw [List.set_eq_take_cons_drop v hidx]
      have hlt : (acc.take idx).length = idx := by
        rw [List.length_take]; omega
      have htake : (acc.take idx ++ v :: acc.drop (idx + 1)).take (idx + 1)
          = acc.take idx ++ [v] := by
        rw [List.take_append_eq_append_take, hlt]
        have h1 : idx + 1 - idx = 1 := by omega
        rw [h1]
        have h2 : (acc.take idx).take (idx + 1) = acc.take idx := by
          rw [List.take_take]
          congr 1
          omega
        rw [h2]
        rfl
      have hdrop : (acc.take idx ++ v :: acc.drop (idx + 1)).drop (idx + 1 + d)
          = acc.drop (idx + (d + 1)) := by
        rw [List.drop_append_eq_append_drop, hlt]
        have h1 : (acc.take idx).drop (idx + 1 + d) = [] := by
          apply List.drop_eq_nil_of_le
          omega
        rw [h1, List.nil_append]
        have h2 : idx + 1 + d - idx = 1 + d := by omega
        rw [h2]
        show (v :: acc.drop (idx + 1)).drop (1 + d) = acc.drop (idx + (d + 1))
        have h3 : 1 + d = d + 1 := by omega
        rw [h3, List.drop_succ_cons, List.drop_drop]
        congr 1
        omega
      rw [htake, hdrop]
      have hrep : List.replicate (d + 1) v = [v] ++ List.replicate d v := rfl
      rw [hrep]
      simp [List.append_assoc]

theorem totalDims_cons (defDims : FeatureName → Nat) (f : FeatureName) (w : ℚ)
    (rest : FeatureSettingsMap) :
    totalDims defDims ((f, w) :: rest) = defDims f + totalDims defDims rest := by
  simp [totalDims]

theorem totalDims_append (defDims : FeatureName → Nat)
    (l r : FeatureSettingsMap) :
    totalDims defDims (l ++ r) = totalDims defDims l + totalDims defDims r := by
  simp [totalDims]

theorem weightsFlat_cons (defDims : FeatureName → Nat) (f : FeatureName) (w : ℚ)
    (rest : FeatureSettingsMap) :
    weightsFlat defDims ((f, w) :: rest) =
      List.replicate (defDims f) (1 / (defDims f : ℚ) * w)
        ++ weightsFlat defDims rest := by
  simp [weightsFlat]

theorem weightsFlat_append (defDims : FeatureName → Nat)
    (l r : FeatureSettingsMap) :
    weightsFlat defDims (l ++ r) =
      weightsFlat defDims l ++ weightsFlat defDims r := by
  simp [weightsFlat]

theorem length_weightsFlat (defDims : FeatureName → Nat) :
    ∀ fsm : FeatureSettingsMap,
      (weightsFlat defDims fsm).length = totalDims defDims fsm
  | [] => rfl
  | (f, w) :: rest => by
      rw [weightsFlat_cons, List.length_append, List.length_replicate,
        length_weightsFlat defDims rest, totalDims_cons]

theorem writeWeights_snd (defDims : FeatureName → Nat) :
    ∀ (fsm : FeatureSettingsMap) (idx : Nat) (acc : List ℚ),
      (writeWeights defDims fsm idx acc).2 = idx + totalDims defDims fsm
  | [], idx, acc => by simp [writeWeights, totalDims]
  | (f, w) :: rest, idx, acc => by
      rw [writeWeights, writeWeights_snd defDims rest, totalDims_cons]
      omega

theorem writeWeights_fst (defDims : FeatureName → Nat) :
    ∀ (fsm : FeatureSettingsMap) (idx : Nat) (acc : List ℚ),
      idx + totalDims defDims fsm ≤ acc.length →
      (writeWeights defDims fsm idx acc).1 =
        acc.take idx ++ weightsFlat defDims fsm
          ++ acc.drop (idx + totalDims defDims fsm)
  | [], idx, acc, h => by
      simp [writeWeights, weightsFlat, totalDims, List.take_append_drop]
  | (f, w) :: rest, idx, acc, h => by
      rw [totalDims_cons] at h
      have hblock : idx + defDims f ≤ acc.length := by omega
      rw [writeWeights]
      have hlen : (idx + defDims f) + totalDims defDims rest ≤
          (writeBlock acc idx (defDims f) (1 / (defDims f : ℚ) * w)).length := by
        rw [writeBlock_length]
        omega
      rw [writeWeights_fst defDims rest (idx + defDims f) _ hlen]
      rw [writeBlock_eq _ _ _ _ hblock]
      have hlt : (acc.take idx).length = idx := by
        rw [List.length_take]; omega
      have hpre : ((acc.take idx ++ List.replicate (defDims f) (1 / (defDims f : ℚ) * w))).length
          = idx + defDims f := by
        rw [List.length_append, hlt, List.length_replicate]
      have htake : (acc.take idx ++ List.replicate (defDims f) (1 / (defDims f : ℚ) * w)
            ++ acc.drop (idx + defDims f)).take (idx + defDims f)
          = acc.take idx ++ List.replicate (defDims f) (1 / (defDims f : ℚ) * w) := by
        rw [← hpre]
        exact List.take_left _ _
      have hdrop : (acc.take idx ++ List.replicate (defDims f) (1 / (defDims f : ℚ) * w)
            ++ acc.drop (idx + defDims f)).drop (idx + defDims f + totalDims defDims rest)
          = acc.drop (idx + (defDims f + totalDims defDims rest)) := by
        rw [List.drop_append_eq_append_drop, hpre]
        have h1 : (acc.take idx ++ List.replicate (defDims f) (1 / (defDims f : ℚ) * w)).drop
            (idx + defDims f + totalDims defDims rest) = [] := by
          apply List.drop_eq_nil_of_le
          rw [hpre]; omega
        rw [h1, List.nil_append]
        have h2 : idx + defDims f + totalDims defDims rest - (idx + defDims f)
            = totalDims defDims rest := by omega
        rw [h2, List.drop_drop]
        congr 1
        omega
      rw [htake, hdrop, weightsFlat_cons, totalDims_cons]
      simp [List.append_assoc]

theorem nbDimensionsOf_eq_totalDims (defDims : FeatureName → Nat)
    (fsm : FeatureSettingsMap) (h : (fsm.map Prod.fst).Nodup) :
    nbDimensionsOf defDims fsm = totalDims defDims fsm := by
  unfold nbDimensionsOf totalDims
  rw [List.dedup_eq_self.mpr h, List.map_map]
  rfl

theorem getInputVectorWeights_eq_weightsFlat (defDims : FeatureName → Nat)
    (fsm : FeatureSettingsMap) (h : (fsm.map Prod.fst).Nodup) :
    getInputVectorWeights defDims fsm (nbDimensionsOf defDims fsm)
      = weightsFlat defDims fsm := by
  unfold getInputVectorWeights
  rw [nbDimensionsOf_eq_totalDims defDims fsm h]
  have hlen : 0 + totalDims defDims fsm ≤
      (List.replicate (totalDims defDims fsm) (0 : ℚ)).length := by
    rw [List.length_replicate]; omega
  rw [writeWeights_fst defDims fsm 0 _ hlen]
  simp [List.drop_replicate]

/-- C8: in the data-weights vector built by `getInputVectorWeights` at the
dimension count computed by `loadFromTraining`, the block of slots
belonging to feature `f` holds `1 / nbDimensions(f) * weight(f)` in every
slot, so the block sums to exactly `weight(f)` regardless of the feature's
dimensionality. -/
theorem c8_data_weights_proportional (defDims : FeatureName → Nat)
    (pre suf : FeatureSettingsMap) (f : FeatureName) (w : ℚ)
    (hd : 1 ≤ defDims f)
    (hnd : (((pre ++ (f, w) :: suf).map Prod.fst)).Nodup) :
    ((getInputVectorWeights defDims (pre ++ (f, w) :: suf)
        (nbDimensionsOf defDims (pre ++ (f, w) :: suf))).drop
          (totalDims defDims pre)).take (defDims f)
      = List.replicate (defDims f) (1 / (defDims f : ℚ) * w)
    ∧ ((((getInputVectorWeights defDims (pre ++ (f, w) :: suf)
        (nbDimensionsOf defDims (pre ++ (f, w) :: suf))).drop
          (totalDims defDims pre)).take (defDims f)).sum = w) := by
  have hflat := getInputVectorWeights_eq_weightsFlat defDims _ hnd
  have hblock : ((getInputVectorWeights defDims (pre ++ (f, w) :: suf)
        (nbDimensionsOf defDims (pre ++ (f, w) :: suf))).drop
          (totalDims defDims pre)).take (defDims f)
      = List.replicate (defDims f) (1 / (defDims f : ℚ) * w) := by
    rw [hflat, weightsFlat_append, weightsFlat_cons]
    rw [List.drop_left' (length_weightsFlat defDims pre)]
    rw [List.take_left' (List.length_replicate _ _)]
  refine ⟨hblock, ?_⟩
  rw [hblock, List.sum_replicate, nsmul_eq_mul]
  have hd0 : (defDims f : ℚ) ≠ 0 := by
    have : 0 < defDims f := hd
    exact_mod_cast this.ne'
  field_simp

/-- Witness for C8: a concrete two-feature settings map; the second
feature has weight 5 over 3 dimensions. -/
theorem c8_witness :
    (((getInputVectorWeights c8dd ([("a", 3)] ++ ("b", (5 : ℚ)) :: [])
        (nbDimensionsOf c8dd ([("a", 3)] ++ ("b", (5 : ℚ)) :: []))).drop
          (totalDims c8dd [("a", 3)])).take (c8dd "b")
      = List.replicate (c8dd "b") (1 / (c8dd "b" : ℚ) * 5))
    ∧ ((((getInputVectorWeights c8dd ([("a", 3)] ++ ("b", (5 : ℚ)) :: [])
        (nbDimensionsOf c8dd ([("a", 3)] ++ ("b", (5 : ℚ)) :: []))).drop
          (totalDims c8dd [("a", 3)])).take (c8dd "b")).sum = 5) :=
  c8_data_weights_proportional c8dd [("a", 3)] [] "b" 5 (by decide) (by decide)

/-- C10: the final `index` of `getInputVectorWeights` equals the
`nbDimensions` computed by `loadFromTraining` over exactly the settings
map's feature names, so `assert(index == nbDimensions)` cannot fire. -/
theorem c10_weights_index_assert (defDims : FeatureName → Nat)
    (fsm : FeatureSettingsMap) (h : (fsm.map Prod.fst).Nodup) :
    (writeWeights defDims fsm 0
        (List.replicate (nbDimensionsOf defDims fsm) 0)).2
      = nbDimensionsOf defDims fsm := by
  rw [writeWeights_snd, nbDimensionsOf_eq_totalDims defDims fsm h]
  omega

/-- Witness for C10 at a concrete two-feature settings map. -/
theorem c10_witness :
    (writeWeights c8dd [("a", (1 : ℚ)), ("b", 2)] 0
        (List.replicate (nbDimensionsOf c8dd [("a", (1 : ℚ)), ("b", 2)]) 0)).2
      = nbDimensionsOf c8dd [("a", (1 : ℚ)), ("b", 2)] :=
  c10_weights_index_assert c8dd [("a", (1 : ℚ)), ("b", 2)] (by decide)

/-! ## Sample conversion and the extraction loop (claim C9) -/

theorem convertGo_none (defDims : FeatureName → Nat) :
    ∀ (fvm : FeatureValuesMap) (i : Nat) (acc : List ℚ) (f : FeatureName)
      (vs : List ℚ), (f, vs) ∈ fvm → vs.length ≠ defDims f →
      convertGo defDims fvm i acc = none
  | [], _, _, _, _, hmem, _ => absurd hmem (List.not_mem_nil _)
  | (g, us) :: rest, i, acc, f, vs, hmem, hne => by
      rw [convertGo]
      by_cases hg : us.length ≠ defDims g
      · rw [if_pos hg]
      · rw [if_neg hg]
        rcases List.mem_cons.mp hmem with heq | htail
        · injection heq with h1 h2
          subst h1; subst h2
          exact absurd hne hg
        · exact convertGo_none defDims rest _ _ f vs htail hne

theorem extractGo_no_cancel (env : Env) (names : List FeatureName)
    (nbDims : Nat) :
    ∀ (l : List TrackId) (polls : Nat),
      extractGo env names nbDims none l polls
        = (some (l.filterMap fun t =>
            (sampleOfTrack env names nbDims t).map fun v => (t, v)),
           polls + l.length)
  | [], polls => by simp [extractGo]
  | t :: rest, polls => by
      rw [extractGo]
      have hnc : isCancelled none polls = false := rfl
      rw [hnc]
      cases hs : sampleOfTrack env names nbDims t with
      | none =>
          rw [extractGo_no_cancel env names nbDims rest (polls + 1)]
          simp only [Bool.false_eq_true, if_neg, List.filterMap_cons, hs]
          have : polls + 1 + rest.length = polls + (rest.length + 1) := by omega
          rw [this]
          simp
      | some v =>
          rw [extractGo_no_cancel env names nbDims rest (polls + 1)]
          simp only [Bool.false_eq_true, if_neg, List.filterMap_cons, hs,
            Option.map_some]
          have : polls + 1 + rest.length = polls + (rest.length + 1) := by omega
          rw [this]
          simp

/-- C9: a feature whose stored value count differs from its declared
dimension count makes `convertFeatureValuesMapToInputVector` yield no
vector (first conjunct), and the extraction loop of `loadFromTraining`
is exactly a per-track filter: dropped tracks are skipped and every track
with a usable vector contributes its sample, unaffected by the drops
(second conjunct). -/
theorem c9_mismatch_drops_only_that_sample :
    (∀ (defDims : FeatureName → Nat) (fvm : FeatureValuesMap) (nb : Nat)
      (f : FeatureName) (vs : List ℚ), (f, vs) ∈ fvm →
      vs.length ≠ defDims f →
      convertFeatureValuesMapToInputVector defDims fvm nb = none)
    ∧ (∀ (env : Env) (names : List FeatureName) (nbDims : Nat)
        (l : List TrackId) (polls : Nat),
        extractGo env names nbDims none l polls
          = (some (l.filterMap fun t =>
              (sampleOfTrack env names nbDims t).map fun v => (t, v)),
             polls + l.length)) := by
  constructor
  · intro defDims fvm nb f vs hmem hne
    exact convertGo_none defDims fvm 0 _ f vs hmem hne
  · intro env names nbDims l polls
    exact extractGo_no_cancel env names nbDims l polls

/-- Witness for C9: the mismatched map of track 1 converts to nothing,
and the three-track batch yields exactly the samples of tracks 0 and 2. -/
theorem c9_witness :
    convertFeatureValuesMapToInputVector (fun _ => 1) [("a", [1, 2])] 1 = none
    ∧ extractGo c9env ["a"] 1 none [0, 1, 2] 0
        = (some [(0, [0]), (2, [2])], 0 + 3) := by
  constructor
  · exact c9_mismatch_drops_only_that_sample.1 (fun _ => 1) [("a", [1, 2])] 1
      "a" [1, 2] (by decide) (by decide)
  · rw [c9_mismatch_drops_only_that_sample.2 c9env ["a"] 1 [0, 1, 2] 0]
    rfl

/-! ## The map-construction loop of model adoption (claims C1 and C3) -/

theorem processArtistLink_trackPositions (w h : Nat) (p : Position)
    (st : EngineState) (al : ArtistId × LinkType) :
    (processArtistLink w h p st al).trackPositions = st.trackPositions := rfl

theorem processArtistLink_releasePositions (w h : Nat) (p : Position)
    (st : EngineState) (al : ArtistId × LinkType) :
    (processArtistLink w h p st al).releasePositions = st.releasePositions := rfl

theorem processArtistLink_network (w h : Nat) (p : Position)
    (st : EngineState) (al : ArtistId × LinkType) :
    (processArtistLink w h p st al).network = st.network := rfl

theorem foldAL_trackPositions (w h : Nat) (p : Position) :
    ∀ (links : List (ArtistId × LinkType)) (st : EngineState),
      ((links.foldl (processArtistLink w h p) st).trackPositions)
        = st.trackPositions
  | [], _ => rfl
  | al :: rest, st => by
      rw [List.foldl_cons, foldAL_trackPositions w h p rest,
        processArtistLink_trackPositions]

theorem foldAL_releasePositions (w h : Nat) (p : Position) :
    ∀ (links : List (ArtistId × LinkType)) (st : EngineState),
      ((links.foldl (processArtistLink w h p) st).releasePositions)
        = st.releasePositions
  | [], _ => rfl
  | al :: rest, st => by
      rw [List.foldl_cons, foldAL_releasePositions w h p rest,
        processArtistLink_releasePositions]

theorem foldAL_network (w h : Nat) (p : Position) :
    ∀ (links : List (ArtistId × LinkType)) (st : EngineState),
      ((links.foldl (processArtistLink w h p) st).network) = st.network
  | [], _ => rfl
  | al :: rest, st => by
      rw [List.foldl_cons, foldAL_network w h p rest, processArtistLink_network]

theorem processPosition_trackPositions (env : Env) (w h : Nat) (t : TrackId)
    (st : EngineState) (p : Position) :
    (processPosition env w h t st p).trackPositions
      = alUpd [] st.trackPositions t (fun ps => pushIfAbsent ps p) := by
  unfold processPosition
  rw [foldAL_trackPositions]
  cases env.trackRelease t <;> rfl

theorem processPosition_releasePositions (env : Env) (w h : Nat) (t : TrackId)
    (st : EngineState) (p : Position) :
    (processPosition env w h t st p).releasePositions
      = (match env.trackRelease t with
        | some r => alUpd [] st.releasePositions r (fun ps => pushIfAbsent ps p)
        | none => st.releasePositions) := by
  unfold processPosition
  rw [foldAL_releasePositions]
  cases env.trackRelease t <;> rfl

theorem processPosition_network (env : Env) (w h : Nat) (t : TrackId)
    (st : EngineState) (p : Position) :
    (processPosition env w h t st p).network = st.network := by
  unfold processPosition
  rw [foldAL_network]
  cases env.trackRelease t <;> rfl

theorem posFold_trackPositions (env : Env) (w h : Nat) (t : TrackId) :
    ∀ (ps : List Position) (st : EngineState),
      ((ps.foldl (processPosition env w h t) st).trackPositions)
        = ps.foldl (fun tp p => alUpd [] tp t (fun l => pushIfAbsent l p))
            st.trackPositions
  | [], _ => rfl
  | p :: rest, st => by
      rw [List.foldl_cons, List.foldl_cons, posFold_trackPositions env w h t rest,
        processPosition_trackPositions]

theorem posFold_releasePositions (env : Env) (w h : Nat) (t : TrackId) :
    ∀ (ps : List Position) (st : EngineState),
      ((ps.foldl (processPosition env w h t) st).releasePositions)
        = ps.foldl (fun rp p =>
            match env.trackRelease t with
            | some r => alUpd [] rp r (fun l => pushIfAbsent l p)
            | none => rp) st.releasePositions
  | [], _ => rfl
  | p :: rest, st => by
      rw [List.foldl_cons, List.foldl_cons,
        posFold_releasePositions env w h t rest, processPosition_releasePositions]

theorem posFold_network (env : Env) (w h : Nat) (t : TrackId) :
    ∀ (ps : List Position) (st : EngineState),
      ((ps.foldl (processPosition env w h t) st).network) = st.network
  | [], _ => rfl
  | p :: rest, st => by
      rw [List.foldl_cons, posFold_network env w h t rest, processPosition_network]

theorem processEntry_network (env : Env) (w h : Nat) (st : EngineState)
    (e : TrackId × List Position) :
    (processEntry env w h st e).network = st.network := by
  unfold processEntry
  by_cases hex : env.trackExists e.1 = true
  · rw [if_pos hex, posFold_network]
  · rw [if_neg hex]

theorem loadModelGo_network (env : Env) (w h : Nat) (cancel : Option Nat) :
    ∀ (entries : TrackPositions) (st : EngineState) (polls : Nat),
      ((loadModelGo env w h cancel entries st polls).1).network = st.network
  | [], _, _ => rfl
  | e :: rest, st, polls => by
      rw [loadModelGo]
      by_cases hc : isCancelled cancel polls = true
      · rw [if_pos hc]
      · rw [if_neg hc, loadModelGo_network env w h cancel rest,
          processEntry_network]

theorem loadModelGo_no_cancel (env : Env) (w h : Nat) :
    ∀ (entries : TrackPositions) (st : EngineState) (polls : Nat),
      loadModelGo env w h none entries st polls
        = (entries.foldl (processEntry env w h) st, polls + entries.length, true)
  | [], st, polls => by simp [loadModelGo]
  | e :: rest, st, polls => by
      rw [loadModelGo]
      have hnc : isCancelled none polls = false := rfl
      rw [hnc]
      have harith : polls + 1 + rest.length = polls + (rest.length + 1) := by
        omega
      rw [if_neg (by simp), loadModelGo_no_cancel env w h rest _ (polls + 1),
        harith, List.foldl_cons]
      rfl

theorem loadModel_no_cancel (env : Env) (st : EngineState)
    (net : SOM.Network) (tp : TrackPositions) (polls : Nat) :
    loadModel env st none polls net tp
      = ({ (tp.foldl (processEntry env net.width net.height)
            { st with
              networkRefVectorsDistanceMedian := net.refVectorsDistanceMedian,
              releaseMatrix := SOM.Matrix.mk net.width net.height [],
              trackMatrix := SOM.Matrix.mk net.width net.height [] })
            with network := some net }, polls + tp.length) := by
  unfold loadModel
  simp only [loadModelGo_no_cancel, loadModelReset]

theorem alUpd_append_last [DecidableEq κ] (d : ν) (k : κ) (v : ν) (f : ν → ν) :
    ∀ (A : List (κ × ν)), k ∉ A.map Prod.fst →
      alUpd d (A ++ [(k, v)]) k f = A ++ [(k, f v)]
  | [], _ => by simp [alUpd]
  | (k0, v0) :: rest, h => by
      simp only [List.map_cons, List.mem_cons] at h
      push_neg at h
      have hne : k0 ≠ k := fun hc => h.1 hc.symm
      simp only [List.cons_append]
      rw [alUpd, if_neg hne, alUpd_append_last d k v f rest h.2]

theorem tpFold_last (t : TrackId) :
    ∀ (rest : List Position) (A : TrackPositions) (done : List Position),
      t ∉ A.map Prod.fst → (∀ p ∈ rest, p ∉ done) → rest.Nodup →
      rest.foldl (fun tp p => alUpd [] tp t (fun l => pushIfAbsent l p))
          (A ++ [(t, done)])
        = A ++ [(t, done ++ rest)]
  | [], A, done, _, _, _ => by simp
  | p :: rest, A, done, hA, hdone, hnd => by
      rw [List.foldl_cons, alUpd_append_last [] t done _ A hA]
      have hp : p ∉ done := hdone p (List.mem_cons_self p rest)
      rw [pushIfAbsent_of_not_mem hp]
      have hnd' := (List.nodup_cons.mp hnd)
      have hdone' : ∀ q ∈ rest, q ∉ done ++ [p] := by
        intro q hq
        simp only [List.mem_append, List.mem_singleton]
        push_neg
        refine ⟨hdone q (List.mem_cons_of_mem p hq), ?_⟩
        intro hqp
        exact hnd'.1 (hqp ▸ hq)
      rw [tpFold_last t rest A (done ++ [p]) hA hdone' hnd'.2]
      simp

theorem tpFold_fresh (t : TrackId) :
    ∀ (ps : List Position) (A : TrackPositions),
      t ∉ A.map Prod.fst → ps.Nodup → ps ≠ [] →
      ps.foldl (fun tp p => alUpd [] tp t (fun l => pushIfAbsent l p)) A
        = A ++ [(t, ps)]
  | [], _, _, _, hne => absurd rfl hne
  | p :: rest, A, hA, hnd, _ => by
      rw [List.foldl_cons, alUpd_of_absent [] A t _ hA]
      have hpush : pushIfAbsent ([] : List Position) p = [p] := rfl
      rw [hpush]
      have hnd' := List.nodup_cons.mp hnd
      have hdone : ∀ q ∈ rest, q ∉ [p] := by
        intro q hq
        simp only [List.mem_singleton]
        intro hqp
        exact hnd'.1 (hqp ▸ hq)
      rw [tpFold_last t rest A [p] hA hdone hnd'.2]
      simp

theorem processEntry_trackPositions_of_exists (env : Env) (w h : Nat)
    (st : EngineState) (t : TrackId) (ps : List Position)
    (hex : env.trackExists t = true) :
    (processEntry env w h st (t, ps)).trackPositions
      = ps.foldl (fun tp p => alUpd [] tp t (fun l => pushIfAbsent l p))
          st.trackPositions := by
  unfold processEntry
  rw [if_pos hex, posFold_trackPositions]

theorem entriesFold_trackPositions (env : Env) (w h : Nat) :
    ∀ (entries : TrackPositions) (st : EngineState),
      (∀ e ∈ entries, env.trackExists e.1 = true ∧ e.2 ≠ [] ∧ e.2.Nodup) →
      (st.trackPositions.map Prod.fst ++ entries.map Prod.fst).Nodup →
      (entries.foldl (processEntry env w h) st).trackPositions
        = st.trackPositions ++ entries
  | [], st, _, _ => by simp
  | (t, ps) :: rest, st, hall, hnd => by
      obtain ⟨hex, hne, hpsnd⟩ := hall (t, ps) (List.mem_cons_self _ _)
      have ht : t ∉ st.trackPositions.map Prod.fst := by
        have hdisj := List.disjoint_of_nodup_append hnd
        intro hmem
        exact hdisj hmem (by simp)
      rw [List.foldl_cons]
      have hstep : (processEntry env w h st (t, ps)).trackPositions
          = st.trackPositions ++ [(t, ps)] := by
        rw [processEntry_trackPositions_of_exists env w h st t ps hex]
        exact tpFold_fresh t ps st.trackPositions ht hpsnd hne
      have hrest := entriesFold_trackPositions env w h rest
        (processEntry env w h st (t, ps))
        (fun e he => hall e (List.mem_cons_of_mem _ he))
        (by
          rw [hstep]
          simp only [List.map_append, List.map_cons, List.map_nil]
          rw [List.append_assoc]
          simpa using hnd)
      rw [hrest, hstep]
      simp

/-- C1 counterexample: adopting a cache whose track was deleted from the
catalogue and calling `toCache()` again yields a different capture — the
entry loop of the rebuild skips tracks that no longer resolve
(src/unnamed/part_002:418-420), so the stale track's positions are not
reproduced. The round-trip law as stated fails on this model. -/
theorem c1_counterexample :
    toCache (loadFromCache c1env EngineState.fresh none 0 c1cache).1
      ≠ some c1cache := by decide

/-- C1 amended: the round trip holds for every adopted model all of whose
tracks still exist in the catalogue (with the map well-formedness the
source maintains: distinct track keys, each track's position list
nonempty and duplicate-free), starting from a fresh engine and with no
cancellation: `toCache()` then reproduces exactly the adopted
`{Network, TrackPositions}`. -/
theorem loadModel_fresh_committed (env : Env) (net : SOM.Network)
    (tp : TrackPositions)
    (hall : ∀ e ∈ tp, env.trackExists e.1 = true ∧ e.2 ≠ [] ∧ e.2.Nodup)
    (hkeys : (tp.map Prod.fst).Nodup) :
    ((loadModel env EngineState.fresh none 0 net tp).1).network = some net
    ∧ ((loadModel env EngineState.fresh none 0 net tp).1).trackPositions
        = tp := by
  rw [loadModel_no_cancel]
  refine ⟨rfl, ?_⟩
  show ((tp.foldl (processEntry env net.width net.height)
      { EngineState.fresh with
        networkRefVectorsDistanceMedian := net.refVectorsDistanceMedian,
        releaseMatrix := SOM.Matrix.mk net.width net.height [],
        trackMatrix := SOM.Matrix.mk net.width net.height [] }).trackPositions)
    = tp
  rw [entriesFold_trackPositions env net.width net.height tp _ hall
    (by simpa using hkeys)]
  rfl

/-- C1 amended: the round trip holds for every adopted model all of whose
tracks still exist in the catalogue, with the map well-formedness the
source itself maintains (distinct track keys; each track's position list
nonempty and duplicate-free), starting from a fresh engine with no
cancellation: `toCache()` then reproduces exactly the adopted
`{Network, TrackPositions}`. -/
theorem c1_roundtrip_amended (env : Env) (cache : FeaturesEngineCache)
    (hall : ∀ e ∈ cache.trackPositions,
      env.trackExists e.1 = true ∧ e.2 ≠ [] ∧ e.2.Nodup)
    (hkeys : (cache.trackPositions.map Prod.fst).Nodup) :
    toCache (loadFromCache env EngineState.fresh none 0 cache).1
      = some cache := by
  obtain ⟨net, tp⟩ := cache
  have h := loadModel_fresh_committed env net tp hall hkeys
  show toCache (loadModel env EngineState.fresh none 0 net tp).1
    = some ⟨net, tp⟩
  unfold toCache
  rw [h.1, h.2]
  rfl

/-- Witness for C1 amended: a cache with two existing tracks round-trips
exactly. -/
theorem c1_witness :
    toCache (loadFromCache c9env EngineState.fresh none 0
        ⟨c1net, [(1, [(0, 0)]), (2, [(0, 1), (1, 1)])]⟩).1
      = some ⟨c1net, [(1, [(0, 0)]), (2, [(0, 1), (1, 1)])]⟩ :=
  c1_roundtrip_amended c9env ⟨c1net, [(1, [(0, 0)]), (2, [(0, 1), (1, 1)])]⟩
    (by decide) (by decide)

theorem mem_alGetD_alUpd_push [DecidableEq κ] [DecidableEq β]
    (l : List (κ × List β)) (k k' : κ) (x y : β) :
    y ∈ alGetD [] (alUpd [] l k (fun v => pushIfAbsent v x)) k'
      ↔ y ∈ alGetD [] l k' ∨ (k' = k ∧ y = x) := by
  rw [alGetD_alUpd]
  by_cases h : k' = k
  · subst h
    rw [if_pos rfl, mem_pushIfAbsent]
    tauto
  · rw [if_neg h]
    tauto

theorem mem_rpFold (rel : Option ReleaseId) :
    ∀ (ps : List Position) (rp : List (ReleaseId × List Position))
      (r : ReleaseId) (q : Position),
      q ∈ alGetD [] (ps.foldl (fun rp p =>
          match rel with
          | some r0 => alUpd [] rp r0 (fun l => pushIfAbsent l p)
          | none => rp) rp) r
        ↔ q ∈ alGetD [] rp r ∨ (rel = some r ∧ q ∈ ps)
  | [], rp, r, q => by simp
  | p :: rest, rp, r, q => by
      cases rel with
      | none =>
          simp only [List.foldl_cons]
          rw [mem_rpFold none rest rp r q]
          simp
      | some r0 =>
          simp only [List.foldl_cons]
          rw [mem_rpFold (some r0) rest _ r q, mem_alGetD_alUpd_push]
          simp only [Option.some.injEq, List.mem_cons]
          constructor
          · rintro ((hA | ⟨hr, hqp⟩) | ⟨hr0, hq⟩)
            · exact Or.inl hA
            · exact Or.inr ⟨hr.symm, Or.inl hqp⟩
            · exact Or.inr ⟨hr0, Or.inr hq⟩
          · rintro (hA | ⟨hr0, hqp | hq⟩)
            · exact Or.inl (Or.inl hA)
            · exact Or.inl (Or.inr ⟨hr0.symm, hqp⟩)
            · exact Or.inr ⟨hr0, hq⟩

theorem mem_rp_processEntry (env : Env) (w h : Nat) (st : EngineState)
    (e : TrackId × List Position) (r : ReleaseId) (q : Position) :
    q ∈ alGetD [] ((processEntry env w h st e).releasePositions) r
      ↔ q ∈ alGetD [] st.releasePositions r
        ∨ (env.trackExists e.1 = true ∧ env.trackRelease e.1 = some r
            ∧ q ∈ e.2) := by
  unfold processEntry
  by_cases hex : env.trackExists e.1 = true
  · rw [if_pos hex, posFold_releasePositions, mem_rpFold]
    simp [hex]
  · rw [if_neg hex]
    simp [hex]

theorem mem_rp_entriesFold (env : Env) (w h : Nat) :
    ∀ (entries : TrackPositions) (st : EngineState) (r : ReleaseId)
      (q : Position),
      q ∈ alGetD [] ((entries.foldl (processEntry env w h) st).releasePositions) r
        ↔ q ∈ alGetD [] st.releasePositions r
          ∨ ∃ t ps, (t, ps) ∈ entries ∧ env.trackExists t = true
              ∧ env.trackRelease t = some r ∧ q ∈ ps
  | [], st, r, q => by simp
  | e :: rest, st, r, q => by
      obtain ⟨t0, ps0⟩ := e
      rw [List.foldl_cons, mem_rp_entriesFold env w h rest _ r q,
        mem_rp_processEntry]
      constructor
      · rintro ((hA | ⟨hex, hrel, hq⟩) | ⟨t, ps, hmem, hex, hrel, hq⟩)
        · exact Or.inl hA
        · exact Or.inr ⟨t0, ps0, List.mem_cons_self _ _, hex, hrel, hq⟩
        · exact Or.inr ⟨t, ps, List.mem_cons_of_mem _ hmem, hex, hrel, hq⟩
      · rintro (hA | ⟨t, ps, hmem, hex, hrel, hq⟩)
        · exact Or.inl (Or.inl hA)
        · rcases List.mem_cons.mp hmem with heq | htail
          · injection heq with h1 h2
            subst h1; subst h2
            exact Or.inl (Or.inr ⟨hex, hrel, hq⟩)
          · exact Or.inr ⟨t, ps, htail, hex, hrel, hq⟩

/-- C3 amended: the rebuild of
`FeaturesEngine::load(const SOM::Network&, const TrackPositions&)` is not
total — only the track and release matrices (and the median) are
reassigned, while the position maps and artist matrices are extended in
place and keep entries from earlier loads. What does hold: after a load
into a fresh engine, every release's position set is exactly the union of
the position sets of its existing tracks in the loaded model. -/
theorem c3_fresh_load_release_union (env : Env) (net : SOM.Network)
    (tp : TrackPositions) (r : ReleaseId) (q : Position) :
    q ∈ alGetD []
        ((loadModel env EngineState.fresh none 0 net tp).1.releasePositions) r
      ↔ ∃ t ps, (t, ps) ∈ tp ∧ env.trackExists t = true
          ∧ env.trackRelease t = some r ∧ q ∈ ps := by
  rw [loadModel_no_cancel]
  show q ∈ alGetD []
      ((tp.foldl (processEntry env net.width net.height)
        { EngineState.fresh with
          networkRefVectorsDistanceMedian := net.refVectorsDistanceMedian,
          releaseMatrix := SOM.Matrix.mk net.width net.height [],
          trackMatrix := SOM.Matrix.mk net.width net.height [] }).releasePositions) r
    ↔ _
  rw [mem_rp_entriesFold]
  simp [alGetD, EngineState.fresh]

/-- C3 counterexample: after a second load, release 10 still holds the
stale position `(0, 0)` from the first load even though no track of the
second model occupies it — the position maps are never discarded, so the
release's position set is strictly larger than the union of its tracks'
position sets in the current model. -/
theorem c3_counterexample :
    (0, 0) ∈ alGetD [] c3st2.releasePositions 10
    ∧ (0, 0) ∉ alGetD [] ([(1, [(1, 1)])] : TrackPositions) 1 := by decide

/-! ## Cancellation bookkeeping (claims C2, C4 and C5) -/

theorem isCancelled_some_false {c i : Nat}
    (h : isCancelled (some c) i = false) : i < c := by
  simpa [isCancelled] using h

theorem isCancelled_some_true {c i : Nat}
    (h : isCancelled (some c) i = true) : c ≤ i := by
  simpa [isCancelled] using h

theorem extractGo_polls_le (env : Env) (names : List FeatureName) (nb : Nat)
    (cancel : Option Nat) : ∀ (l : List TrackId) (polls : Nat),
      polls ≤ (extractGo env names nb cancel l polls).2
  | [], _ => le_refl _
  | t :: rest, polls => by
      rw [extractGo]
      by_cases hc : isCancelled cancel polls = true
      · rw [if_pos hc]
        exact Nat.le_succ _
      · rw [if_neg hc]
        cases hs : sampleOfTrack env names nb t with
        | none =>
            simp only
            have := extractGo_polls_le env names nb cancel rest (polls + 1)
            omega
        | some v =>
            simp only
            rcases hrec : extractGo env names nb cancel rest (polls + 1)
              with ⟨o, p'⟩
            have := extractGo_polls_le env names nb cancel rest (polls + 1)
            rw [hrec] at this
            cases o <;> simp <;> omega

theorem extractGo_agree (env : Env) (names : List FeatureName) (nb : Nat)
    (c : Nat) : ∀ (l : List TrackId) (polls : Nat),
      (extractGo env names nb (some c) l polls).2 ≤ c →
      extractGo env names nb (some c) l polls
        = extractGo env names nb none l polls
  | [], _, _ => rfl
  | t :: rest, polls, h => by
      rw [extractGo] at h ⊢
      by_cases hc : isCancelled (some c) polls = true
      · rw [if_pos hc] at h
        have hci := isCancelled_some_true hc
        simp only at h
        omega
      · rw [if_neg hc]
        have hnone : isCancelled none polls = false := rfl
        rw [extractGo, hnone, if_neg (by simp)]
        rw [if_neg hc] at h
        cases hs : sampleOfTrack env names nb t with
        | none =>
            simp only [hs] at h ⊢
            exact extractGo_agree env names nb c rest (polls + 1) h
        | some v =>
            simp only [hs] at h ⊢
            rcases hrec : extractGo env names nb (some c) rest (polls + 1)
              with ⟨o, p'⟩
            have hrec2 : (extractGo env names nb (some c) rest (polls + 1)).2
                ≤ c := by
              rw [hrec] at h ⊢
              cases o <;> simpa using h
            rw [← extractGo_agree env names nb c rest (polls + 1) hrec2, hrec]

theorem trainGo_polls_le (samples : List (List ℚ)) (cancel : Option Nat) :
    ∀ (fuel : Nat) (net : SOM.Network) (k polls : Nat),
      polls ≤ (SOM.trainGo samples cancel net k fuel polls).2.1
  | 0, _, _, _ => le_refl _
  | fuel + 1, net, k, polls => by
      rw [SOM.trainGo]
      by_cases hc : isCancelled cancel polls = true
      · rw [if_pos hc]
        exact Nat.le_succ _
      · rw [if_neg hc]
        have := trainGo_polls_le samples cancel fuel
          (net.trainStep (samples.getD (k % samples.length) []) k) (k + 1)
          (polls + 1)
        omega

theorem trainGo_agree (samples : List (List ℚ)) (c : Nat) :
    ∀ (fuel : Nat) (net : SOM.Network) (k polls : Nat),
      (SOM.trainGo samples (some c) net k fuel polls).2.1 ≤ c →
      SOM.trainGo samples (some c) net k fuel polls
        = SOM.trainGo samples none net k fuel polls
  | 0, _, _, _, _ => rfl
  | fuel + 1, net, k, polls, h => by
      rw [SOM.trainGo] at h ⊢
      by_cases hc : isCancelled (some c) polls = true
      · rw [if_pos hc] at h
        have hci := isCancelled_some_true hc
        simp only at h
        omega
      · rw [if_neg hc]
        have hnone : isCancelled none polls = false := rfl
        rw [SOM.trainGo, hnone, if_neg (by simp)]
        rw [if_neg hc] at h
        exact trainGo_agree samples c fuel _ (k + 1) (polls + 1) h

theorem classifyGo_polls_le (net : SOM.Network) (cancel : Option Nat) :
    ∀ (l : List (TrackId × List ℚ)) (tp : TrackPositions) (polls : Nat),
      polls ≤ (classifyGo net cancel l tp polls).2
  | [], _, _ => le_refl _
  | (t, v) :: rest, tp, polls => by
      rw [classifyGo]
      by_cases hc : isCancelled cancel polls = true
      · rw [if_pos hc]
        exact Nat.le_succ _
      · rw [if_neg hc]
        have := classifyGo_polls_le net cancel rest
          (alUpd [] tp t (fun ps => ps ++ [net.closest v])) (polls + 1)
        omega

theorem classifyGo_agree (net : SOM.Network) (c : Nat) :
    ∀ (l : List (TrackId × List ℚ)) (tp : TrackPositions) (polls : Nat),
      (classifyGo net (some c) l tp polls).2 ≤ c →
      classifyGo net (some c) l tp polls = classifyGo net none l tp polls
  | [], _, _, _ => rfl
  | (t, v) :: rest, tp, polls, h => by
      rw [classifyGo] at h ⊢
      by_cases hc : isCancelled (some c) polls = true
      · rw [if_pos hc] at h
        have hci := isCancelled_some_true hc
        simp only at h
        omega
      · rw [if_neg hc]
        have hnone : isCancelled none polls = false := rfl
        rw [classifyGo, hnone, if_neg (by simp)]
        rw [if_neg hc] at h
        exact classifyGo_agree net c rest _ (polls + 1) h

theorem loadModelGo_polls_le (env : Env) (w h : Nat) (cancel : Option Nat) :
    ∀ (entries : TrackPositions) (st : EngineState) (polls : Nat),
      polls ≤ (loadModelGo env w h cancel entries st polls).2.1
  | [], _, _ => le_refl _
  | e :: rest, st, polls => by
      rw [loadModelGo]
      by_cases hc : isCancelled cancel polls = true
      · rw [if_pos hc]
        exact Nat.le_succ _
      · rw [if_neg hc]
        have := loadModelGo_polls_le env w h cancel rest
          (processEntry env w h st e) (polls + 1)
        omega

theorem loadModelGo_agree (env : Env) (w h : Nat) (c : Nat) :
    ∀ (entries : TrackPositions) (st : EngineState) (polls : Nat),
      (loadModelGo env w h (some c) entries st polls).2.1 ≤ c →
      loadModelGo env w h (some c) entries st polls
        = loadModelGo env w h none entries st polls
  | [], _, _, _ => rfl
  | e :: rest, st, polls, hle => by
      rw [loadModelGo] at hle ⊢
      by_cases hc : isCancelled (some c) polls = true
      · rw [if_pos hc] at hle
        have hci := isCancelled_some_true hc
        simp only at hle
        omega
      · rw [if_neg hc]
        have hnone : isCancelled none polls = false := rfl
        rw [loadModelGo, hnone, if_neg (by simp)]
        rw [if_neg hc] at hle
        exact loadModelGo_agree env w h c rest _ (polls + 1) hle

theorem extractGo_polls_le' {env : Env} {names : List FeatureName} {nb : Nat}
    {cancel : Option Nat} {l : List TrackId} {polls : Nat}
    {o : Option (List (TrackId × List ℚ))} {p : Nat}
    (h : extractGo env names nb cancel l polls = (o, p)) : polls ≤ p := by
  have := extractGo_polls_le env names nb cancel l polls
  rw [h] at this
  exact this

theorem extractGo_agree' {env : Env} {names : List FeatureName} {nb : Nat}
    {c : Nat} {l : List TrackId} {polls : Nat}
    {o : Option (List (TrackId × List ℚ))} {p : Nat}
    (h : extractGo env names nb (some c) l polls = (o, p)) (hle : p ≤ c) :
    extractGo env names nb none l polls = (o, p) := by
  rw [← h]
  exact (extractGo_agree env names nb c l polls (by rw [h]; exact hle)).symm

theorem trainGo_polls_le' {samples : List (List ℚ)} {cancel : Option Nat}
    {fuel : Nat} {net net2 : SOM.Network} {k polls p2 : Nat} {b : Bool}
    (h : SOM.trainGo samples cancel net k fuel polls = (net2, p2, b)) :
    polls ≤ p2 := by
  have := trainGo_polls_le samples cancel fuel net k polls
  rw [h] at this
  exact this

theorem trainGo_agree' {samples : List (List ℚ)} {c : Nat} {fuel : Nat}
    {net net2 : SOM.Network} {k polls p2 : Nat} {b : Bool}
    (h : SOM.trainGo samples (some c) net k fuel polls = (net2, p2, b))
    (hle : p2 ≤ c) :
    SOM.trainGo samples none net k fuel polls = (net2, p2, b) := by
  rw [← h]
  exact (trainGo_agree samples c fuel net k polls (by rw [h]; exact hle)).symm

theorem classifyGo_polls_le' {net : SOM.Network} {cancel : Option Nat}
    {l : List (TrackId × List ℚ)} {tp : TrackPositions} {polls : Nat}
    {o : Option TrackPositions} {p : Nat}
    (h : classifyGo net cancel l tp polls = (o, p)) : polls ≤ p := by
  have := classifyGo_polls_le net cancel l tp polls
  rw [h] at this
  exact this

theorem classifyGo_agree' {net : SOM.Network} {c : Nat}
    {l : List (TrackId × List ℚ)} {tp : TrackPositions} {polls : Nat}
    {o : Option TrackPositions} {p : Nat}
    (h : classifyGo net (some c) l tp polls = (o, p)) (hle : p ≤ c) :
    classifyGo net none l tp polls = (o, p) := by
  rw [← h]
  exact (classifyGo_agree net c l tp polls (by rw [h]; exact hle)).symm

theorem loadModel_polls_eq (env : Env) (st : EngineState)
    (cancel : Option Nat) (polls : Nat) (net : SOM.Network)
    (tp : TrackPositions) :
    (loadModel env st cancel polls net tp).2
      = (loadModelGo env net.width net.height cancel tp
          (loadModelReset st net) polls).2.1 := by
  simp only [loadModel]
  split
  · rename_i st2 p2 heq
    rw [heq]
  · rename_i st2 p2 heq
    rw [heq]

theorem loadModel_polls_le (env : Env) (st : EngineState)
    (cancel : Option Nat) (polls : Nat) (net : SOM.Network)
    (tp : TrackPositions) :
    polls ≤ (loadModel env st cancel polls net tp).2 := by
  rw [loadModel_polls_eq]
  exact loadModelGo_polls_le env net.width net.height cancel tp
    (loadModelReset st net) polls

theorem loadModel_agree (env : Env) (st : EngineState) (c : Nat)
    (polls : Nat) (net : SOM.Network) (tp : TrackPositions)
    (h : (loadModel env st (some c) polls net tp).2 ≤ c) :
    loadModel env st (some c) polls net tp
      = loadModel env st none polls net tp := by
  rw [loadModel_polls_eq] at h
  simp only [loadModel]
  rw [loadModelGo_agree env net.width net.height c tp
    (loadModelReset st net) polls h]

/-- All-or-nothing commit: model adoption either commits exactly the
supplied network or leaves the network member untouched. -/
theorem loadModel_network_cases (env : Env) (st : EngineState)
    (cancel : Option Nat) (polls : Nat) (net : SOM.Network)
    (tp : TrackPositions) :
    ((loadModel env st cancel polls net tp).1).network = some net
    ∨ ((loadModel env st cancel polls net tp).1).network = st.network := by
  simp only [loadModel]
  split
  · left; rfl
  · rename_i st2 p2 heq
    right
    have hnet := loadModelGo_network env net.width net.height cancel tp
      (loadModelReset st net) polls
    rw [heq] at hnet
    exact hnet

theorem classifyGo_no_cancel (net : SOM.Network) :
    ∀ (l : List (TrackId × List ℚ)) (tp : TrackPositions) (polls : Nat),
      classifyGo net none l tp polls
        = (some (l.foldl (fun tp e =>
            alUpd [] tp e.1 (fun ps => ps ++ [net.closest e.2])) tp),
           polls + l.length)
  | [], tp, polls => by simp [classifyGo]
  | (t, v) :: rest, tp, polls => by
      rw [classifyGo]
      have hnc : isCancelled none polls = false := rfl
      rw [hnc, if_neg (by simp),
        classifyGo_no_cancel net rest _ (polls + 1)]
      have harith : polls + 1 + rest.length = polls + (rest.length + 1) := by
        omega
      rw [harith, List.foldl_cons]
      simp

theorem trainStep_width (net : SOM.Network) (sample : List ℚ) (k : Nat) :
    (net.trainStep sample k).width = net.width := rfl

theorem trainStep_height (net : SOM.Network) (sample : List ℚ) (k : Nat) :
    (net.trainStep sample k).height = net.height := rfl

theorem trainGo_dims (samples : List (List ℚ)) (cancel : Option Nat) :
    ∀ (fuel : Nat) (net : SOM.Network) (k polls : Nat),
      ((SOM.trainGo samples cancel net k fuel polls).1).width = net.width
      ∧ ((SOM.trainGo samples cancel net k fuel polls).1).height = net.height
  | 0, _, _, _ => ⟨rfl, rfl⟩
  | fuel + 1, net, k, polls => by
      rw [SOM.trainGo]
      by_cases hc : isCancelled cancel polls = true
      · rw [if_pos hc]
        exact ⟨rfl, rfl⟩
      · rw [if_neg hc]
        have := trainGo_dims samples cancel fuel
          (net.trainStep (samples.getD (k % samples.length) []) k) (k + 1)
          (polls + 1)
        rwa [trainStep_width, trainStep_height] at this

theorem loadFromTraining_polls_le (env : Env) (ts : TrainSettings)
    (st : EngineState) (cancel : Option Nat) (polls : Nat) :
    polls ≤ (loadFromTraining env ts st cancel polls).2 := by
  simp only [loadFromTraining]
  split
  · rename_i p heq
    exact extractGo_polls_le' heq
  · rename_i pairs p heq
    have h1 : polls ≤ p := extractGo_polls_le' heq
    split
    · exact h1
    · rcases htr : SOM.trainGo ((normalizedPairs env ts pairs).map Prod.snd)
          cancel (initialNetwork env ts pairs) 0 ts.iterationCount p
        with ⟨net2, p2, b⟩
      have h2 : p ≤ p2 := trainGo_polls_le' htr
      rcases hcl : classifyGo net2 cancel (normalizedPairs env ts pairs) [] p2
        with ⟨oc, p3⟩
      simp only [htr, hcl]
      have h3 : p2 ≤ p3 := classifyGo_polls_le' hcl
      cases oc with
      | none => simp only; omega
      | some tpn =>
          simp only
          have h4 := loadModel_polls_le env st cancel p3 net2 tpn
          omega

theorem loadFromTraining_agree (env : Env) (ts : TrainSettings)
    (st : EngineState) (c : Nat) (polls : Nat)
    (h : (loadFromTraining env ts st (some c) polls).2 ≤ c) :
    loadFromTraining env ts st (some c) polls
      = loadFromTraining env ts st none polls := by
  simp only [loadFromTraining] at h ⊢
  split at h
  · rename_i p hext
    simp only at h
    rw [extractGo_agree' hext h]
  · rename_i pairs p hext
    by_cases hemp : pairs.isEmpty = true
    · rw [if_pos hemp] at h
      simp only at h
      rw [extractGo_agree' hext h]
      simp [hemp]
    · rw [if_neg hemp] at h
      rcases htr : SOM.trainGo ((normalizedPairs env ts pairs).map Prod.snd)
          (some c) (initialNetwork env ts pairs) 0 ts.iterationCount p
        with ⟨net2, p2, b⟩
      rw [htr] at h
      rcases hcl : classifyGo net2 (some c) (normalizedPairs env ts pairs) []
          p2 with ⟨oc, p3⟩
      rw [hcl] at h
      cases oc with
      | none =>
          simp only at h
          have hp2 : p2 ≤ c := le_trans (classifyGo_polls_le' hcl) h
          have hp : p ≤ c := le_trans (trainGo_polls_le' htr) hp2
          simp only [hext, extractGo_agree' hext hp, if_neg hemp, htr,
            trainGo_agree' htr hp2, hcl, classifyGo_agree' hcl h]
      | some tpn =>
          simp only at h
          have hfin : p3 ≤ c :=
            le_trans (loadModel_polls_le env st (some c) p3 net2 tpn) h
          have hp2 : p2 ≤ c := le_trans (classifyGo_polls_le' hcl) hfin
          have hp : p ≤ c := le_trans (trainGo_polls_le' htr) hp2
          simp only [hext, extractGo_agree' hext hp, if_neg hemp, htr,
            trainGo_agree' htr hp2, hcl, classifyGo_agree' hcl hfin]
          exact loadModel_agree env st c p3 net2 tpn h

theorem loadFromTraining_agree' {env : Env} {ts : TrainSettings}
    {st st' : EngineState} {c polls p' : Nat}
    (h : loadFromTraining env ts st (some c) polls = (st', p')) (hle : p' ≤ c) :
    loadFromTraining env ts st none polls = (st', p') := by
  rw [← h]
  exact (loadFromTraining_agree env ts st c polls (by rw [h]; exact hle)).symm

theorem loadTrainPath_wrote_cancel (env : Env) (st : EngineState)
    (cancel : Option Nat) (cacheNow : Option FeaturesEngineCache)
    (out : LoadOutcome) (i : Nat)
    (h : loadTrainPath env st cancel cacheNow = some out)
    (hi : isCancelled cancel i = true) (hlt : i < out.polls) :
    out.wroteCache = false := by
  simp only [loadTrainPath] at h
  rcases hft : loadFromTraining env (defaultTrainSettings env) st cancel 0
    with ⟨st', p'⟩
  simp only [hft] at h
  by_cases hc : isCancelled cancel p' = true
  · rw [if_pos hc] at h
    injection h with h'
    rw [← h']
  · rw [if_neg hc] at h
    cases htc : toCache st' with
    | none =>
        rw [htc] at h
        simp at h
    | some cc =>
        simp only [htc] at h
        injection h with h'
        rw [← h'] at hlt
        simp only at hlt
        have : isCancelled cancel p' = true := isCancelled_mono hi (by omega)
        exact absurd this hc

theorem loadTrainPath_agree (env : Env) (st : EngineState) (c : Nat)
    (cacheNow : Option FeaturesEngineCache) (out : LoadOutcome)
    (h : loadTrainPath env st (some c) cacheNow = some out)
    (hge : out.polls ≤ c) :
    loadTrainPath env st none cacheNow = some out := by
  simp only [loadTrainPath] at h ⊢
  rcases hft : loadFromTraining env (defaultTrainSettings env) st (some c) 0
    with ⟨st', p'⟩
  simp only [hft] at h
  by_cases hc : isCancelled (some c) p' = true
  · rw [if_pos hc] at h
    injection h with h'
    have hcp := isCancelled_some_true hc
    rw [← h'] at hge
    simp only at hge
    omega
  · rw [if_neg hc] at h
    have hcf : isCancelled (some c) p' = false := by
      cases hval : isCancelled (some c) p'
      · rfl
      · exact absurd hval hc
    have hplt : p' < c := isCancelled_some_false hcf
    have hnone : isCancelled none p' = false := rfl
    simp only [loadFromTraining_agree' hft (by omega : p' ≤ c), hnone,
      Bool.false_eq_true, if_false]
    exact h

theorem load_wrote_cancel (env : Env) (force : Bool) (st : EngineState)
    (cancel : Option Nat) (out : LoadOutcome) (i : Nat)
    (h : load env force st cancel = some out)
    (hi : isCancelled cancel i = true) (hlt : i < out.polls) :
    out.wroteCache = false := by
  unfold load at h
  by_cases hf : force = true
  · rw [if_pos hf] at h
    exact loadTrainPath_wrote_cancel env st cancel none out i h hi hlt
  · rw [if_neg hf] at h
    cases hcs : env.cacheStored with
    | none =>
        rw [hcs] at h
        exact loadTrainPath_wrote_cancel env st cancel none out i h hi hlt
    | some c0 =>
        simp only [hcs] at h
        rcases hlc : loadFromCache env st cancel 0 c0 with ⟨st', p'⟩
        simp only [hlc] at h
        injection h with h'
        rw [← h']

theorem load_no_retro (env : Env) (force : Bool) (st : EngineState)
    (c : Nat) (out : LoadOutcome)
    (h : load env force st (some c) = some out) (hge : out.polls ≤ c) :
    load env force st none = some out := by
  unfold load at h ⊢
  by_cases hf : force = true
  · rw [if_pos hf] at h ⊢
    exact loadTrainPath_agree env st c none out h hge
  · rw [if_neg hf] at h ⊢
    cases hcs : env.cacheStored with
    | none =>
        simp only [hcs] at h ⊢
        exact loadTrainPath_agree env st c none out h hge
    | some c0 =>
        simp only [hcs] at h ⊢
        rcases hlc : loadFromCache env st (some c) 0 c0 with ⟨st', p'⟩
        simp only [hlc] at h
        injection h with h'
        have hple : p' ≤ c := by
          rw [← h'] at hge
          simpa using hge
        have hlc_none : loadFromCache env st none 0 c0 = (st', p') := by
          unfold loadFromCache at hlc ⊢
          rw [← hlc]
          exact (loadModel_agree env st c 0 c0.network c0.trackPositions
            (by rw [hlc]; exact hple)).symm
        simp only [hlc_none]
        rw [h']

/-- C4 amended: cancellation is safe for the model and the cache, but not
for the derived indices. (1) Model adoption commits all-or-nothing: the
network member either becomes exactly the supplied network or is left
untouched — never a partial model. (2) If the flag is observed set at any
read that happens during `load()`, the cache is not written. (3) A
cancellation request that no read of the run observes has no effect at
all: the run equals the cancellation-free run. What the original claim
wrongly adds — that the whole engine state is unchanged — fails: the
matrices and median are reset before the commit point (see the
counterexample). -/
theorem c4_cancellation_amended :
    (∀ (env : Env) (st : EngineState) (cancel : Option Nat) (polls : Nat)
      (net : SOM.Network) (tp : TrackPositions),
      ((loadModel env st cancel polls net tp).1).network = some net
      ∨ ((loadModel env st cancel polls net tp).1).network = st.network)
    ∧ (∀ (env : Env) (force : Bool) (st : EngineState) (cancel : Option Nat)
        (out : LoadOutcome) (i : Nat), load env force st cancel = some out →
        isCancelled cancel i = true → i < out.polls →
        out.wroteCache = false)
    ∧ (∀ (env : Env) (force : Bool) (st : EngineState) (c : Nat)
        (out : LoadOutcome), load env force st (some c) = some out →
        out.polls ≤ c → load env force st none = some out) :=
  ⟨loadModel_network_cases, load_wrote_cancel, load_no_retro⟩

/-- C4 counterexample: a cancellation observed during index construction
leaves the engine with its track matrix wiped (reset before the entry
loop, src/unnamed/part_002:404-405) even though no model was committed
and no cache was written — so "the engine's state is unchanged" fails. -/
theorem c4_counterexample :
    (c4run.map fun o =>
      (decide (o.state.trackMatrix = c4st0.trackMatrix),
       decide (o.state.network = c4st0.network), o.wroteCache))
      = some (false, true, false) := by decide

/-- Witness for C4 amended: the cancelled run writes no cache, and the
unobserved cancellation leaves the run identical to the
cancellation-free run. -/
theorem c4_witness :
    c4out.wroteCache = false
    ∧ load c4env true c4st0 none = some c4out100 := by
  constructor
  · exact c4_cancellation_amended.2.1 c4env true c4st0 (some 3) c4out 3
      (by decide) (by decide) (by decide)
  · exact c4_cancellation_amended.2.2 c4env true c4st0 100 c4out100
      (by decide) (by decide)

/-- C2: the cache write is guarded only by the cancellation flag
(src/unnamed/part_002:382-383), not by training success. With an empty
sample set ("Nothing to classify!", line 187-191) `load()` still reaches
`toCache().write()`: on a fresh engine this dereferences the null
`_network` (undefined behaviour, modelled as `none`); on an engine with a
previous model it rewrites the stale previous model to the cache. Both
contradict the claim that no cache write occurs on the empty-corpus
outcome. -/
theorem c2_empty_corpus_cache_write :
    load c2env false EngineState.fresh none = none
    ∧ (load c2env false c2prevState none).map
        (fun o => (o.wroteCache, o.cacheAfter))
      = some (true, some ⟨c2net, [(7, [(0, 0)])]⟩) := by decide

theorem extract_top (env : Env) (ts : TrainSettings) (polls : Nat) :
    extractGo env (trainFeatureNames ts) (trainNbDims env ts) none
        env.allTrackIds polls
      = (some (extractedPairs env ts), polls + env.allTrackIds.length) := by
  rw [extractGo_no_cancel]
  rfl

theorem isqrtGo_eq (n : Nat) :
    ∀ bound : Nat, Nat.sqrt n ≤ bound → isqrtGo n bound = Nat.sqrt n
  | 0, h => by
      rw [isqrtGo]
      omega
  | k + 1, h => by
      rw [isqrtGo]
      by_cases hk : (k + 1) * (k + 1) ≤ n
      · rw [if_pos hk]
        have hle : k + 1 ≤ Nat.sqrt n := Nat.le_sqrt.mpr hk
        omega
      · rw [if_neg hk]
        have hlt : Nat.sqrt n < k + 1 := by
          by_contra hc
          push_neg at hc
          have := Nat.sqrt_le' n
          have h2 : (k + 1) * (k + 1) ≤ Nat.sqrt n * Nat.sqrt n :=
            Nat.mul_le_mul hc hc
          have h3 := Nat.sqrt_le n
          omega
        exact isqrtGo_eq n k (by omega)

theorem isqrt_eq_sqrt (n : Nat) : isqrt n = Nat.sqrt n :=
  isqrtGo_eq n n (Nat.sqrt_le_self n)

theorem gridSize_eq_sqrt (n : Nat) (q : ℚ) :
    gridSize n q = max 2 (Nat.sqrt (((n : ℚ) / q).floor.toNat)) := by
  rw [gridSize, isqrt_eq_sqrt]

theorem int_floor_real_sqrt (x : ℝ) (hx : 0 ≤ x) :
    ⌊Real.sqrt x⌋ = (Nat.sqrt (⌊x⌋.toNat) : ℤ) := by
  set k := Nat.sqrt (⌊x⌋.toNat) with hk
  have h0 : (0 : ℤ) ≤ ⌊x⌋ := Int.le_floor.mpr (by exact_mod_cast hx)
  have hm : (⌊x⌋.toNat : ℤ) = ⌊x⌋ := Int.toNat_of_nonneg h0
  have hks : (k : ℝ) ^ 2 ≤ x := by
    have h1 : k * k ≤ ⌊x⌋.toNat := Nat.sqrt_le (⌊x⌋.toNat)
    have h2 : ((⌊x⌋.toNat : ℤ) : ℝ) ≤ x := by
      rw [hm]
      exact Int.floor_le x
    calc (k : ℝ) ^ 2 = ((k * k : ℕ) : ℝ) := by push_cast; ring
      _ ≤ ((⌊x⌋.toNat : ℕ) : ℝ) := by exact_mod_cast h1
      _ ≤ x := by exact_mod_cast h2
  have hlow : (k : ℝ) ≤ Real.sqrt x :=
    (Real.le_sqrt (by positivity) hx).mpr hks
  have hup : x < ((k : ℝ) + 1) ^ 2 := by
    have h1 : ⌊x⌋.toNat < (k + 1) * (k + 1) := Nat.lt_succ_sqrt (⌊x⌋.toNat)
    have h2 : x < (⌊x⌋ : ℝ) + 1 := Int.lt_floor_add_one x
    calc x < (⌊x⌋ : ℝ) + 1 := h2
      _ = ((⌊x⌋.toNat : ℕ) : ℝ) + 1 := by
          rw [show ((⌊x⌋.toNat : ℕ) : ℝ) = ((⌊x⌋.toNat : ℤ) : ℝ) by push_cast; ring,
            hm]
      _ ≤ (((k + 1) * (k + 1) : ℕ) : ℝ) := by exact_mod_cast h1
      _ = ((k : ℝ) + 1) ^ 2 := by push_cast; ring
  have hup' : Real.sqrt x < (k : ℝ) + 1 :=
    (Real.sqrt_lt' (by positivity)).mpr hup
  refine Int.floor_eq_iff.mpr ⟨by exact_mod_cast hlow, ?_⟩
  push_cast
  exact hup'

/-- The sizing expression of src/unnamed/part_002:200-205 is exactly the
claim's formula over the reals: the truncated real square root of
`sampleCount / sampleCountPerNeuron`, clamped below at 2. -/
theorem gridSize_real (n : Nat) (q : ℚ) (hq : 0 < q) :
    (gridSize n q : ℤ) = max 2 ⌊Real.sqrt ((n : ℝ) / (q : ℝ))⌋ := by
  have hq' : (0 : ℝ) < (q : ℝ) := by exact_mod_cast hq
  have hx : (0 : ℝ) ≤ (n : ℝ) / (q : ℝ) := by positivity
  rw [int_floor_real_sqrt _ hx]
  have hcast : ((n : ℝ) / (q : ℝ)) = ((((n : ℚ) / q : ℚ)) : ℝ) := by
    push_cast
    ring
  rw [hcast, Rat.floor_cast]
  have hfl : ⌊(n : ℚ) / q⌋ = ((n : ℚ) / q).floor := rfl
  rw [hfl, gridSize, isqrt_eq_sqrt]
  simp [Nat.cast_max]

theorem initialNetwork_width (env : Env) (ts : TrainSettings)
    (pairs : List (TrackId × List ℚ)) :
    (initialNetwork env ts pairs).width
      = gridSize pairs.length ts.sampleCountPerNeuron := by
  simp [initialNetwork, SOM.Network.new, SOM.Network.setDataWeights,
    normalizedPairs]

theorem initialNetwork_height (env : Env) (ts : TrainSettings)
    (pairs : List (TrackId × List ℚ)) :
    (initialNetwork env ts pairs).height
      = gridSize pairs.length ts.sampleCountPerNeuron := by
  simp [initialNetwork, SOM.Network.new, SOM.Network.setDataWeights,
    normalizedPairs]

/-- C5: in an uncancelled training pass over a nonempty sample set with
positive `sampleCountPerNeuron`, the committed network is the square grid
of side `gridSize = max 2 (floor (sqrt (sampleCount /
sampleCountPerNeuron)))` computed at src/unnamed/part_002:200-205 (last
conjunct: the sizing expression is exactly the claim's formula); in
particular the sizing gives side 10 for 400 samples at 4 per neuron, and
side 2 for a single sample. -/
theorem c5_grid_sizing :
    (∀ (env : Env) (ts : TrainSettings) (st : EngineState),
      0 < ts.sampleCountPerNeuron →
      (extractedPairs env ts).length ≠ 0 →
      ((loadFromTraining env ts st none 0).1.network.map SOM.Network.width
          = some (gridSize (extractedPairs env ts).length
              ts.sampleCountPerNeuron)
        ∧ (loadFromTraining env ts st none 0).1.network.map SOM.Network.height
          = some (gridSize (extractedPairs env ts).length
              ts.sampleCountPerNeuron)))
    ∧ gridSize 400 4 = 10 ∧ gridSize 1 4 = 2
    ∧ (∀ (n : Nat) (q : ℚ), 0 < q →
        (gridSize n q : ℤ) = max 2 ⌊Real.sqrt ((n : ℝ) / (q : ℝ))⌋) := by
  refine ⟨?_, by decide, by decide, gridSize_real⟩
  intro env ts st hq hk
  have hemp : (extractedPairs env ts).isEmpty = false := by
    cases hE : extractedPairs env ts with
    | nil => rw [hE] at hk; simp at hk
    | cons a l => rfl
  simp only [loadFromTraining, extract_top, hemp, Bool.false_eq_true,
    if_false]
  rcases htr : SOM.trainGo
      ((normalizedPairs env ts (extractedPairs env ts)).map Prod.snd) none
      (initialNetwork env ts (extractedPairs env ts)) 0 ts.iterationCount
      (0 + env.allTrackIds.length) with ⟨net2, p2, b⟩
  have hdims := trainGo_dims
    ((normalizedPairs env ts (extractedPairs env ts)).map Prod.snd) none
    ts.iterationCount (initialNetwork env ts (extractedPairs env ts)) 0
    (0 + env.allTrackIds.length)
  rw [htr] at hdims
  simp only at hdims
  simp only [htr, classifyGo_no_cancel]
  rw [loadModel_no_cancel]
  constructor
  · show some net2.width = some (gridSize (extractedPairs env ts).length
      ts.sampleCountPerNeuron)
    rw [hdims.1, initialNetwork_width]
  · show some net2.height = some (gridSize (extractedPairs env ts).length
      ts.sampleCountPerNeuron)
    rw [hdims.2, initialNetwork_height]

/-- Witness for C5: the three-track environment yields two usable samples
and a committed 2 by 2 network (the floor clamp). -/
theorem c5_witness :
    (0 : ℚ) < c5ts.sampleCountPerNeuron
    ∧ (extractedPairs c9env c5ts).length ≠ 0
    ∧ ((loadFromTraining c9env c5ts EngineState.fresh none 0).1.network.map
        SOM.Network.width
      = some (gridSize (extractedPairs c9env c5ts).length
          c5ts.sampleCountPerNeuron))
    ∧ (gridSize 2 4 : ℤ) = max 2 ⌊Real.sqrt ((2 : ℝ) / ((4 : ℚ) : ℝ))⌋ := by
  refine ⟨by decide, by decide, ?_, ?_⟩
  · exact (c5_grid_sizing.1 c9env c5ts EngineState.fresh (by decide)
      (by decide)).1
  · exact c5_grid_sizing.2.2.2 2 4 (by decide)

/-! ## Similarity queries (claims C6 and C7) -/

theorem trimRandomGo_length (rng : Nat → Nat) (maxCount : Nat) :
    ∀ (fuel : Nat) (l : List α) (step : Nat), l.length ≤ maxCount + fuel →
      (trimRandomGo rng maxCount fuel l step).length = min l.length maxCount
  | 0, l, step, hl => by
      rw [trimRandomGo]
      omega
  | fuel + 1, l, step, hl => by
      rw [trimRandomGo]
      by_cases h : l.length ≤ maxCount
      · rw [if_pos h]
        omega
      · rw [if_neg h]
        have hpos : 0 < l.length := by omega
        have hlt : rng step % l.length < l.length := Nat.mod_lt _ hpos
        have hlen := List.length_eraseIdx_of_lt hlt
        have hrec := trimRandomGo_length rng maxCount fuel
          (l.eraseIdx (rng step % l.length)) (step + 1) (by omega)
        omega

theorem trimRandom_length (rng : Nat → Nat) (maxCount : Nat)
    (l : List α) (step : Nat) :
    (trimRandom rng maxCount l step).length = min l.length maxCount :=
  trimRandomGo_length rng maxCount l.length l step (by omega)

theorem trimRandomGo_subset (rng : Nat → Nat) (maxCount : Nat) (x : α) :
    ∀ (fuel : Nat) (l : List α) (step : Nat),
      x ∈ trimRandomGo rng maxCount fuel l step → x ∈ l
  | 0, l, step, hx => by
      rwa [trimRandomGo] at hx
  | fuel + 1, l, step, hx => by
      rw [trimRandomGo] at hx
      by_cases h : l.length ≤ maxCount
      · rwa [if_pos h] at hx
      · rw [if_neg h] at hx
        have hmem := trimRandomGo_subset rng maxCount x fuel
          (l.eraseIdx (rng step % l.length)) (step + 1) hx
        exact List.mem_of_mem_eraseIdx hmem

theorem trimRandom_subset (rng : Nat → Nat) (maxCount : Nat)
    (l : List α) (step : Nat) (x : α)
    (hx : x ∈ trimRandom rng maxCount l step) : x ∈ l :=
  trimRandomGo_subset rng maxCount x l.length l step hx

theorem getSimilarObjects_length_le [DecidableEq α] (queryIds : List α)
    (matrix : SOM.Matrix α) (positions : List (α × List Position))
    (maxCount : Nat) :
    (getSimilarObjects queryIds matrix positions maxCount).length ≤ maxCount := by
  simp only [getSimilarObjects]
  exact (List.length_take_le _ _)

/-- C6: every entity returned by a similarity query passes the external
existence check at query time — the track and artist candidate lists are
filtered through it unconditionally, the release list through the
nonempty guard; deleted entities can never appear and stale index cells
produce no error (all three queries are total functions). -/
theorem c6_stale_entities_filtered :
    (∀ (env : Env) (st : EngineState) (ids : List TrackId) (maxCount : Nat)
      (x : TrackId), x ∈ getSimilarTracks env st ids maxCount →
      env.trackExists x = true)
    ∧ (∀ (env : Env) (st : EngineState) (rid : ReleaseId) (maxCount : Nat)
        (x : ReleaseId), x ∈ getSimilarReleases env st rid maxCount →
        env.releaseExists x = true)
    ∧ (∀ (env : Env) (st : EngineState) (aid : ArtistId)
        (lts : List LinkType) (maxCount : Nat) (x : ArtistId),
        x ∈ getSimilarArtists env st aid lts maxCount →
        env.artistExists x = true) := by
  refine ⟨?_, ?_, ?_⟩
  · intro env st ids maxCount x hx
    exact (List.mem_filter.mp hx).2
  · intro env st rid maxCount x hx
    simp only [getSimilarReleases] at hx
    by_cases hemp :
        (getSimilarObjects [rid] st.releaseMatrix st.releasePositions
          maxCount).isEmpty = true
    · rw [if_pos hemp] at hx
      rw [List.isEmpty_iff] at hemp
      rw [hemp] at hx
      exact absurd hx (List.not_mem_nil x)
    · rw [if_neg hemp] at hx
      exact (List.mem_filter.mp hx).2
  · intro env st aid lts maxCount x hx
    have hc := trimRandom_subset env.rngPick maxCount _ 0 x hx
    exact (List.mem_filter.mp hc).2

/-- C7: every similarity query returns at most `maxCount` entries; for
artist queries the per-link-type candidate sets are computed
independently, their union deduplicated and existence-filtered, and the
random-eviction loop leaves exactly `min` of that union's size and
`maxCount` entries — so a union exceeding `maxCount` is trimmed to
exactly `maxCount`. -/
theorem c7_count_cap_and_trim :
    (∀ (env : Env) (st : EngineState) (ids : List TrackId) (maxCount : Nat),
      (getSimilarTracks env st ids maxCount).length ≤ maxCount)
    ∧ (∀ (env : Env) (st : EngineState) (rid : ReleaseId) (maxCount : Nat),
        (getSimilarReleases env st rid maxCount).length ≤ maxCount)
    ∧ (∀ (env : Env) (st : EngineState) (aid : ArtistId)
        (lts : List LinkType) (maxCount : Nat),
        (getSimilarArtists env st aid lts maxCount).length
          = min (getSimilarArtistsCandidates env st aid lts maxCount).length
              maxCount) := by
  refine ⟨?_, ?_, ?_⟩
  · intro env st ids maxCount
    calc (getSimilarTracks env st ids maxCount).length
        ≤ (getSimilarObjects ids st.trackMatrix st.trackPositions
            maxCount).length := List.length_filter_le _ _
      _ ≤ maxCount := getSimilarObjects_length_le _ _ _ _
  · intro env st rid maxCount
    simp only [getSimilarReleases]
    by_cases hemp :
        (getSimilarObjects [rid] st.releaseMatrix st.releasePositions
          maxCount).isEmpty = true
    · rw [if_pos hemp]
      exact getSimilarObjects_length_le _ _ _ _
    · rw [if_neg hemp]
      calc (List.filter env.releaseExists
            (getSimilarObjects [rid] st.releaseMatrix st.releasePositions
              maxCount)).length
          ≤ (getSimilarObjects [rid] st.releaseMatrix st.releasePositions
              maxCount).length := List.length_filter_le _ _
        _ ≤ maxCount := getSimilarObjects_length_le _ _ _ _
  · intro env st aid lts maxCount
    exact trimRandom_length env.rngPick maxCount _ 0

/-- Witness for C6 at a concrete state where each query returns a
neighbour. -/
theorem c6_witness :
    c6env.trackExists 2 = true ∧ c6env.releaseExists 11 = true
    ∧ c6env.artistExists 6 = true := by
  refine ⟨?_, ?_, ?_⟩
  · exact c6_stale_entities_filtered.1 c6env c6st [1] 5 2 (by decide)
  · exact c6_stale_entities_filtered.2.1 c6env c6st 10 5 11 (by decide)
  · exact c6_stale_entities_filtered.2.2 c6env c6st 5 [0] 5 6 (by decide)

end Recommendation
